import Mathlib

/-!
# Server-Sent Events encoder

A shallow embedding of `sse-encoder.go` (package `sse`): the field writers `writeId`,
`writeEvent`, `writeRetry`, `writeData`, the entry points `Encode` and `Event.Render`, and the
shape test `kindOfData`.

Go strings are byte sequences. A sink is a state together with a write operation that may
fail; the functions of the package thread the sink state explicitly and return the Go `error`
as an `Option` (`none` is `nil`).
-/

set_option autoImplicit false
set_option linter.dupNamespace false

namespace sse

/-! ## Bytes and sinks -/

/-- A Go `string` or `[]byte`: a finite sequence of bytes. -/
abbrev Bytes := List UInt8

/-- The bytes (UTF-8) of a string literal of the source. -/
def lit (s : String) : Bytes := s.toUTF8.data.toList

/-- An `io.Writer` over sink states `σ` with errors in `ε`: one call hands a chunk of bytes
to the sink and yields the new sink state and the error of the call. -/
structure Writer (σ ε : Type) where
  Write : σ → Bytes → σ × Option ε

/-- The `stringWriter` interface used by the field writers. -/
structure stringWriter (σ ε : Type) where
  WriteString : σ → Bytes → σ × Option ε

/-- Modelled from the spec: `checkWriter` and `stringWriter` are declared in a file of the
package that is not part of the sources at hand. The spec asks of the sink only that it is
"a writable byte/text sink supporting append-only string writes", so a sink is taken with one
write operation, and writing a string is writing its bytes. -/
def checkWriter {σ ε : Type} (writer : Writer σ ε) : stringWriter σ ε :=
  ⟨writer.Write⟩

/-- Hands the chunks to the sink one after the other and stops at the first failing write. -/
def writeAll {σ ε : Type} (w : stringWriter σ ε) : σ → List Bytes → σ × Option ε
  | s, [] => (s, none)
  | s, c :: cs =>
    match w.WriteString s c with
    | (s1, some err) => (s1, some err)
    | (s1, none) => writeAll w s1 cs

/-! ## Library: `strings.Replacer` -/

/-- A `strings.Replacer` all of whose old strings are one byte long, which is the only kind
this package builds: the pairs `old, new` in argument order. -/
structure Replacer where
  oldnew : List (UInt8 × Bytes)

/-- `strings.NewReplacer` for one-byte old strings. -/
def NewReplacer (oldnew : List (UInt8 × Bytes)) : Replacer := ⟨oldnew⟩

/-- The replacement of a byte: the new string of the first pair whose old byte it is. -/
def Replacer.lookup (r : Replacer) (b : UInt8) : Option Bytes :=
  match r.oldnew.find? (fun p => p.1 == b) with
  | some p => some p.2
  | none => none

/-- `Replacer.Replace`: every byte that has a replacement is replaced, left to right, and the
replacements are not scanned again. -/
def Replacer.Replace (r : Replacer) : Bytes → Bytes
  | [] => []
  | b :: s =>
    (match r.lookup b with
     | some new => new
     | none => [b]) ++ r.Replace s

/-- How the library cuts the output of `Replacer.WriteString` into writes. The library
documents only that the replaced string is written to the sink, not in how many calls, so
the cutting is left open: any list of chunks whose concatenation is the replaced string. -/
structure Chunking where
  chunks : Replacer → Bytes → List Bytes
  chunks_join : ∀ r s, (chunks r s).flatten = r.Replace s

/-- The cutting that hands over the replaced string in one write. -/
def Chunking.whole : Chunking where
  chunks := fun r s => [r.Replace s]
  chunks_join := by intro r s; simp

/-- `Replacer.WriteString(w, s)`: writes `s` to `w` with all replacements performed. -/
def Replacer.WriteString {σ ε : Type} (r : Replacer) (c : Chunking) (w : stringWriter σ ε)
    (st : σ) (s : Bytes) : σ × Option ε :=
  writeAll w st (c.chunks r s)

/-! ## Library: `strconv.FormatUint` in base 10 -/

/-- The ASCII digit of a number below ten. -/
def digitByte (d : Nat) : UInt8 := UInt8.ofNat (48 + d)

/-- The digit loop of `strconv.FormatUint`: the digits are produced from the least
significant one and put in front of what has been produced. -/
def formatBits : Nat → Nat → Bytes → Bytes
  | 0, _, acc => acc
  | fuel + 1, u, acc =>
    if u < 10 then digitByte u :: acc
    else formatBits fuel (u / 10) (digitByte (u % 10) :: acc)

/-- `strconv.FormatUint(u, 10)`. The loop divides by ten in every round, so `u + 1` rounds
are always enough. -/
def FormatUint (u : Nat) : Bytes := formatBits (u + 1) u []

/-! ## Library: values held in an `interface{}` -/

/-- `reflect.Kind`. -/
inductive Kind where
  | Invalid | Bool | Int | Int8 | Int16 | Int32 | Int64
  | Uint | Uint8 | Uint16 | Uint32 | Uint64 | Uintptr
  | Float32 | Float64 | Complex64 | Complex128
  | Array | Chan | Func | Interface | Map | Ptr | Slice | String | Struct | UnsafePointer
  deriving DecidableEq, Repr

/-- What the formatting libraries make of a value: `text` is the result of `fmt.Sprint`,
and `json` is the document `encoding/json` produces for it or the error it reports. -/
structure Rendering (ε : Type) where
  text : Bytes
  json : Except ε Bytes

/-- A value held in an `interface{}`, as far as this package looks at it: the nil interface,
a value of a kind other than pointer, or a pointer with what it points to (`none` for a
nil pointer). -/
inductive Value (ε : Type) where
  | nil : Value ε
  | direct (k : Kind) (out : Rendering ε) : Value ε
  | pointer (elem : Option (Value ε)) (out : Rendering ε) : Value ε

/-- `reflect.ValueOf(v).Kind()`; the nil interface gives the zero `reflect.Value`, whose kind
is `Invalid`. -/
def Value.Kind {ε : Type} : Value ε → Kind
  | .nil => Kind.Invalid
  | .direct k _ => k
  | .pointer _ _ => Kind.Ptr

/-- `reflect.Value.Elem` of a pointer: the value pointed to, and the zero `reflect.Value`
for a nil pointer. -/
def Value.Elem {ε : Type} : Value ε → Value ε
  | .pointer (some v) _ => v
  | _ => .nil

/-- `fmt.Sprint(v)`; the nil interface is printed as `<nil>`. -/
def Sprint {ε : Type} : Value ε → Bytes
  | .nil => lit "<nil>"
  | .direct _ out => out.text
  | .pointer _ out => out.text

/-- `json.Marshal(v)`; the nil interface is the document `null`. -/
def Marshal {ε : Type} : Value ε → Except ε Bytes
  | .nil => .ok (lit "null")
  | .direct _ out => out.json
  | .pointer _ out => out.json

/-- `json.NewEncoder(w).Encode(v)`: the value is marshalled; on an error nothing is written
and the error is returned; otherwise the document is terminated with a newline and handed to
the sink in one write. -/
def jsonEncode {σ ε : Type} (w : stringWriter σ ε) (st : σ) (v : Value ε) : σ × Option ε :=
  match Marshal v with
  | .error err => (st, some err)
  | .ok doc => w.WriteString st (doc ++ lit "\n")

/-! ## The package -/

/-- The replacer of the `id` and `event` fields. -/
def fieldReplacer : Replacer :=
  NewReplacer [(10, lit "\\n"), (13, lit "\\r")]

/-- The replacer of the `data` field. -/
def dataReplacer : Replacer :=
  NewReplacer [(10, lit "\ndata:"), (13, lit "\\r")]

/-- The event record. `Retry` is a Go `uint`; every `uint` is a natural number. -/
structure Event (ε : Type) where
  Event : Bytes
  Id : Bytes
  Retry : Nat
  Data : Value ε

/-- The function `writeId`. -/
def writeId {σ ε : Type} (c : Chunking) (w : stringWriter σ ε) (st : σ) (id : Bytes) :
    σ × Option ε :=
  if id.length > 0 then
    match w.WriteString st (lit "id:") with
    | (st, some err) => (st, some err)
    | (st, none) =>
      match fieldReplacer.WriteString c w st id with
      | (st, some err) => (st, some err)
      | (st, none) => w.WriteString st (lit "\n")
  else (st, none)

/-- The function `writeEvent`. -/
def writeEvent {σ ε : Type} (c : Chunking) (w : stringWriter σ ε) (st : σ) (event : Bytes) :
    σ × Option ε :=
  if event.length > 0 then
    match w.WriteString st (lit "event:") with
    | (st, some err) => (st, some err)
    | (st, none) =>
      match fieldReplacer.WriteString c w st event with
      | (st, some err) => (st, some err)
      | (st, none) => w.WriteString st (lit "\n")
  else (st, none)

/-- The function `writeRetry`. -/
def writeRetry {σ ε : Type} (w : stringWriter σ ε) (st : σ) (retry : Nat) : σ × Option ε :=
  if retry > 0 then
    match w.WriteString st (lit "retry:") with
    | (st, some err) => (st, some err)
    | (st, none) =>
      match w.WriteString st (FormatUint retry) with
      | (st, some err) => (st, some err)
      | (st, none) => w.WriteString st (lit "\n")
  else (st, none)

/-- The function `kindOfData`. -/
def kindOfData {ε : Type} (data : Value ε) : Kind :=
  let value := data
  let valueType := value.Kind
  if valueType = Kind.Ptr then value.Elem.Kind else valueType

/-- The function `writeData`. -/
def writeData {σ ε : Type} (c : Chunking) (w : stringWriter σ ε) (st : σ) (data : Value ε) :
    σ × Option ε :=
  match w.WriteString st (lit "data:") with
  | (st, some err) => (st, some err)
  | (st, none) =>
    match kindOfData data with
    | Kind.Struct | Kind.Slice | Kind.Map =>
      match jsonEncode w st data with
      | (st, some err) => (st, some err)
      | (st, none) => w.WriteString st (lit "\n")
    | _ =>
      match dataReplacer.WriteString c w st (Sprint data) with
      | (st, some err) => (st, some err)
      | (st, none) => w.WriteString st (lit "\n\n")

/-- The function `Encode`. -/
def Encode {σ ε : Type} (c : Chunking) (writer : Writer σ ε) (st : σ) (event : Event ε) :
    σ × Option ε :=
  let w := checkWriter writer
  match writeId c w st event.Id with
  | (st, some err) => (st, some err)
  | (st, none) =>
    match writeEvent c w st event.Event with
    | (st, some err) => (st, some err)
    | (st, none) =>
      match writeRetry w st event.Retry with
      | (st, some err) => (st, some err)
      | (st, none) => writeData c w st event.Data

/-- The constant `ContentType`. -/
def ContentType : Bytes := lit "text/event-stream"

/-- The header value `contentType`. -/
def contentType : List Bytes := [ContentType]

/-- The header value `noCache`. -/
def noCache : List Bytes := [lit "no-cache"]

/-- An `http.Header`: a map from header names to lists of values; `none` where the map has
no entry. -/
abbrev Header := Bytes → Option (List Bytes)

/-- The map assignment `header[key] = value`. -/
def Header.set (header : Header) (key : Bytes) (value : List Bytes) : Header :=
  fun k => if k = key then some value else header k

/-- An `http.ResponseWriter`: the body is a sink whose write may look at the header map as
it stands when the write is made. -/
structure ResponseWriter (σ ε : Type) where
  Write : Header → σ → Bytes → σ × Option ε

/-- The state of a response: its header map and the state of its body sink. -/
structure Response (σ : Type) where
  header : Header
  body : σ

/-- The method `Event.Render`. -/
def Event.Render {σ ε : Type} (c : Chunking) (r : sse.Event ε) (w : ResponseWriter σ ε)
    (resp : Response σ) : Response σ × Option ε :=
  let header := resp.header
  let header := Header.set header (lit "Content-Type") contentType
  let header :=
    if (header (lit "Cache-Control")).isNone then Header.set header (lit "Cache-Control") noCache
    else header
  match Encode c ⟨w.Write header⟩ resp.body r with
  | (body, err) => (⟨header, body⟩, err)

/-! ## Sinks used in the statements -/

/-- An in-memory buffer: every write appends and none fails. -/
def buffer (ε : Type) : Writer Bytes ε :=
  ⟨fun buf p => (buf ++ p, none)⟩

/-! ## The wire format in the words of the specification -/

/-- Escaping of `id` and `event` values as the specification words it: every newline becomes
the two characters backslash and `n`, every carriage return the two characters backslash
and `r`, every other byte stays. -/
def escapeField (s : Bytes) : Bytes :=
  s.flatMap fun b => if b = 10 then [92, 110] else if b = 13 then [92, 114] else [b]

/-- Escaping of scalar `data` text as the specification words it: every newline becomes a
newline followed by `data:`, every carriage return the two characters backslash and `r`. -/
def escapeData (s : Bytes) : Bytes :=
  s.flatMap fun b => if b = 10 then 10 :: lit "data:" else if b = 13 then [92, 114] else [b]

/-- Shape classification as the specification words it: dereference at most one level of
indirection, then ask whether the shape is a record, an ordered sequence or a mapping. -/
def derefOnce {ε : Type} : Value ε → Value ε
  | .pointer (some v) _ => v
  | .pointer none _ => .nil
  | v => v

/-- A value is structured, in the sense the code gives the word, when its kind after
`derefOnce` is `Struct`, `Slice` or `Map`. -/
def isStructured {ε : Type} (v : Value ε) : Bool :=
  (derefOnce v).Kind = Kind.Struct ∨ (derefOnce v).Kind = Kind.Slice ∨
    (derefOnce v).Kind = Kind.Map

/-- The shapes the specification calls structured: a record or object (`Struct`), an
ordered sequence, which it also words "sequence/array" (`Slice` and `Array`), and a
key-to-value mapping (`Map`), looked at after `derefOnce`. -/
def hasStructuredShape {ε : Type} (v : Value ε) : Bool :=
  (derefOnce v).Kind = Kind.Struct ∨ (derefOnce v).Kind = Kind.Slice ∨
    (derefOnce v).Kind = Kind.Array ∨ (derefOnce v).Kind = Kind.Map

/-- Reading a decimal numeral: the value of a string of ASCII digits. -/
def parseDecimal (s : Bytes) : Nat :=
  s.foldl (fun acc b => 10 * acc + (b.toNat - 48)) 0

/-- The pieces of a byte string between its newlines (as `strings.Split(s, "\n")` gives
them): a string with `n` newlines has `n + 1` pieces. -/
def lines : Bytes → List Bytes
  | [] => [[]]
  | b :: s =>
    if b = 10 then [] :: lines s
    else
      match lines s with
      | [] => [[b]]
      | l :: ls => (b :: l) :: ls

/-- No two newlines stand next to each other in `s`: `s` holds no blank line. -/
def Sparse (s : Bytes) : Prop :=
  List.Chain' (fun a b : UInt8 => a ≠ 10 ∨ b ≠ 10) s

/-- The byte string `s` holds no blank line and does not begin with a newline, so it can
follow any byte string without making a blank line at the seam. -/
def Joinable (s : Bytes) : Prop :=
  Sparse s ∧ s.head? ≠ some 10

/-! ## Sinks that fail, and the writes `Encode` attempts -/

/-- Sequencing as the package does it after every call: on an error return at once with
that error, otherwise go on from the new sink state. -/
def andThen {σ ε : Type} (r : σ × Option ε) (k : σ → σ × Option ε) : σ × Option ε :=
  match r with
  | (st, some err) => (st, some err)
  | (st, none) => k st

/-- The writes `writeId` attempts, in order. -/
def idWrites (c : Chunking) (id : Bytes) : List Bytes :=
  if id.length > 0 then lit "id:" :: (c.chunks fieldReplacer id ++ [lit "\n"]) else []

/-- The writes `writeEvent` attempts, in order. -/
def eventWrites (c : Chunking) (event : Bytes) : List Bytes :=
  if event.length > 0 then lit "event:" :: (c.chunks fieldReplacer event ++ [lit "\n"]) else []

/-- The writes `writeRetry` attempts, in order. -/
def retryWrites (retry : Nat) : List Bytes :=
  if retry > 0 then [lit "retry:", FormatUint retry, lit "\n"] else []

/-- The writes `writeData` attempts, in order; when the serializer fails, `data:` only. -/
def dataWrites {ε : Type} (c : Chunking) (data : Value ε) : List Bytes :=
  lit "data:" ::
    (match kindOfData data with
     | Kind.Struct | Kind.Slice | Kind.Map =>
       (match Marshal data with
        | .ok doc => [doc ++ lit "\n", lit "\n"]
        | .error _ => [])
     | _ => c.chunks dataReplacer (Sprint data) ++ [lit "\n\n"])

/-- The error of the serializer, when the data is structured and cannot be encoded. -/
def dataError {ε : Type} (data : Value ε) : Option ε :=
  match kindOfData data with
  | Kind.Struct | Kind.Slice | Kind.Map =>
    (match Marshal data with
     | .ok _ => none
     | .error err => some err)
  | _ => none

/-- All the writes `Encode` attempts for an event, in order. -/
def attempts {ε : Type} (c : Chunking) (ev : Event ε) : List Bytes :=
  idWrites c ev.Id ++ (eventWrites c ev.Event ++ (retryWrites ev.Retry ++ dataWrites c ev.Data))

/-! ## Further notions used in the statements -/

/-- A control character: a byte below the space, or DEL. -/
def isControl (b : UInt8) : Bool :=
  decide (b.toNat < 32) || decide (b.toNat = 127)

/-- What the data escaping does inside one line: carriage returns become backslash and `r`,
every other byte stays. -/
def escapeCR (s : Bytes) : Bytes :=
  s.flatMap fun b => if b = 13 then [92, 114] else [b]

/-- Joining pieces with one newline between neighbours: the inverse of `lines`. -/
def unlines : List Bytes → Bytes
  | [] => []
  | l :: [] => l
  | l :: l2 :: ls => l ++ 10 :: unlines (l2 :: ls)

/-- Taking the label `data:` off the front of a line that begins with it. -/
def stripLabel (l : Bytes) : Bytes :=
  if (lit "data:").isPrefixOf l then l.drop (lit "data:").length else l

/-- `reflect.Value.Elem` with its panic: it is defined on pointers (the zero
`reflect.Value` for a nil pointer) and panics on every other kind met here, which is
`none`. -/
def Value.checkedElem {ε : Type} : Value ε → Option (Value ε)
  | .pointer (some v) _ => some v
  | .pointer none _ => some .nil
  | _ => none

/-- The function `kindOfData` with the panics of the reflection calls kept: `none` is a
panic, `some k` a normal return. -/
def checkedKindOfData {ε : Type} (data : Value ε) : Option Kind :=
  let value := data
  let valueType := value.Kind
  if valueType = Kind.Ptr then
    match value.checkedElem with
    | some v => some v.Kind
    | none => none
  else some valueType

/-- A response writer that keeps no bytes but notes, at every write to the body, what the
header map holds for `Content-Type` and `Cache-Control` at that moment; every write returns
`res`. -/
def headerSpy {ε : Type} (res : Option ε) :
    ResponseWriter (List (Option (List Bytes) × Option (List Bytes))) ε :=
  ⟨fun header seen _ =>
    (seen ++ [(header (lit "Content-Type"), header (lit "Cache-Control"))], res)⟩

/-- A value a Go program can hold: the constructor `direct` is not used for pointers. -/
def Value.proper {ε : Type} : Value ε → Bool
  | .direct k _ => decide (k ≠ Kind.Ptr)
  | _ => true

/-! ## Concrete values used as inputs -/

/-- The Go value `struct{A int}{1}` with the field tagged `json:"a"`: printed `{1}`,
marshalled as the document `{"a":1}`. -/
def recordA1 : Value String :=
  .direct Kind.Struct ⟨lit "\x7b1\x7d", .ok (lit "\x7b\"a\":1\x7d")⟩

/-- The Go string `"line1\nline2"`, marshalled as a quoted JSON string. -/
def twoLines : Value String :=
  .direct Kind.String ⟨lit "line1\nline2", .ok (lit "\"line1\\nline2\"")⟩

/-- The Go value `[]interface{}{make(chan int)}`, a slice holding a channel: printed as the
address of the channel in brackets, and refused by `encoding/json`. -/
def chanSlice : Value String :=
  .direct Kind.Slice ⟨lit "[0xc000020060]", .error "json: unsupported type: chan int"⟩

/-- A pointer to the record `recordA1`, printed with a leading `&`. -/
def recordPtr : Value String :=
  .pointer (some recordA1) ⟨lit "&\x7b1\x7d", .ok (lit "\x7b\"a\":1\x7d")⟩

/-- A pointer to the pointer `recordPtr`, printed as an address. -/
def recordPtrPtr : Value String :=
  .pointer (some recordPtr) ⟨lit "0xc00000e028", .ok (lit "\x7b\"a\":1\x7d")⟩

/-- A response header map with the one entry `Cache-Control: max-age=10`. -/
def maxAgeHeader : Header :=
  fun k => if k = lit "Cache-Control" then some [lit "max-age=10"] else none

/-- The Go array `[2]int{1, 2}`: printed `[1 2]`, marshalled as the document `[1,2]`. -/
def arrayOneTwo : Value String :=
  .direct Kind.Array ⟨lit "[1 2]", .ok (lit "[1,2]")⟩

/-- The Go string `"hello"`. -/
def hello : Value String :=
  .direct Kind.String ⟨lit "hello", .ok (lit "\"hello\"")⟩

/-- A pointer to the string `hello`: `fmt.Sprint` prints a pointer to a string as its
address in base 16 with a leading `0x`; `encoding/json` follows the pointer. -/
def helloPtr : Value String :=
  .pointer (some hello) ⟨lit "0xc000010250", .ok (lit "\"hello\"")⟩

/-- A nil pointer of type `*string`: printed `<nil>`, marshalled `null`. -/
def nilPtr : Value String :=
  .pointer none ⟨lit "<nil>", .ok (lit "null")⟩

/-- The empty Go string. -/
def emptyString : Value String :=
  .direct Kind.String ⟨[], .ok (lit "\"\"")⟩

/-- The Go string `a<LF>b<LF><LF>c`, with three newlines. -/
def fourLines : Value String :=
  .direct Kind.String ⟨lit "a\nb\n\nc", .ok (lit "\"a\\nb\\n\\nc\"")⟩

end sse

namespace sse

/-! ## Lemmas: literals and replacers -/

theorem lit_newline : lit "\n" = [10] := by decide

theorem lit_blank_line : lit "\n\n" = [10, 10] := by decide

theorem fieldReplacer_lookup (b : UInt8) :
    fieldReplacer.lookup b =
      if b = 10 then some [92, 110] else if b = 13 then some [92, 114] else none := by
  by_cases h10 : b = 10
  · subst h10; decide
  · by_cases h13 : b = 13
    · subst h13; decide
    · have e10 : ((10 : UInt8) == b) = false := by simpa using Ne.symm h10
      have e13 : ((13 : UInt8) == b) = false := by simpa using Ne.symm h13
      simp [Replacer.lookup, fieldReplacer, NewReplacer, List.find?, e10, e13, h10, h13]

theorem dataReplacer_lookup (b : UInt8) :
    dataReplacer.lookup b =
      if b = 10 then some (10 :: lit "data:") else if b = 13 then some [92, 114] else none := by
  by_cases h10 : b = 10
  · subst h10; decide
  · by_cases h13 : b = 13
    · subst h13; decide
    · have e10 : ((10 : UInt8) == b) = false := by simpa using Ne.symm h10
      have e13 : ((13 : UInt8) == b) = false := by simpa using Ne.symm h13
      simp [Replacer.lookup, dataReplacer, NewReplacer, List.find?, e10, e13, h10, h13]

theorem fieldReplacer_Replace (s : Bytes) : fieldReplacer.Replace s = escapeField s := by
  induction s with
  | nil => rfl
  | cons b s ih =>
    have hb := fieldReplacer_lookup b
    simp only [Replacer.Replace, escapeField, List.flatMap_cons] at ih ⊢
    rw [ih, hb]
    by_cases h10 : b = 10
    · simp [h10]
    · by_cases h13 : b = 13
      · simp [h13]
      · simp [h10, h13]

theorem dataReplacer_Replace (s : Bytes) : dataReplacer.Replace s = escapeData s := by
  induction s with
  | nil => rfl
  | cons b s ih =>
    have hb := dataReplacer_lookup b
    simp only [Replacer.Replace, escapeData, List.flatMap_cons] at ih ⊢
    rw [ih, hb]
    by_cases h10 : b = 10
    · simp [h10]
    · by_cases h13 : b = 13
      · simp [h13]
      · simp [h10, h13]

/-! ## Lemmas: the buffer sink -/

theorem writeAll_buffer {ε : Type} (buf : Bytes) (cs : List Bytes) :
    writeAll (checkWriter (buffer ε)) buf cs = (buf ++ cs.flatten, none) := by
  induction cs generalizing buf with
  | nil => simp [writeAll]
  | cons c cs ih =>
    have hw : (checkWriter (buffer ε)).WriteString buf c = (buf ++ c, none) := rfl
    simp [writeAll, hw, ih]

theorem WriteString_buffer {ε : Type} (r : Replacer) (c : Chunking) (buf s : Bytes) :
    r.WriteString c (checkWriter (buffer ε)) buf s = (buf ++ r.Replace s, none) := by
  simp [Replacer.WriteString, writeAll_buffer, c.chunks_join]

theorem buffer_write {ε : Type} (buf p : Bytes) :
    (checkWriter (buffer ε)).WriteString buf p = (buf ++ p, none) := rfl

theorem writeId_buffer {ε : Type} (c : Chunking) (buf id : Bytes) :
    writeId c (checkWriter (buffer ε)) buf id =
      (buf ++ (if id = [] then [] else lit "id:" ++ escapeField id ++ [10]), none) := by
  cases id with
  | nil => simp [writeId]
  | cons b s =>
    simp [writeId, buffer_write, WriteString_buffer, fieldReplacer_Replace, lit_newline]

theorem writeEvent_buffer {ε : Type} (c : Chunking) (buf event : Bytes) :
    writeEvent c (checkWriter (buffer ε)) buf event =
      (buf ++ (if event = [] then [] else lit "event:" ++ escapeField event ++ [10]), none) := by
  cases event with
  | nil => simp [writeEvent]
  | cons b s =>
    simp [writeEvent, buffer_write, WriteString_buffer, fieldReplacer_Replace, lit_newline]

theorem writeRetry_buffer {ε : Type} (buf : Bytes) (retry : Nat) :
    writeRetry (checkWriter (buffer ε)) buf retry =
      (buf ++ (if retry = 0 then [] else lit "retry:" ++ FormatUint retry ++ [10]), none) := by
  by_cases h : retry = 0
  · simp [writeRetry, h]
  · have hpos : retry > 0 := Nat.pos_of_ne_zero h
    simp [writeRetry, hpos, h, buffer_write, lit_newline]

/-! ## Lemmas: the shape test and the two arms of `writeData` -/

theorem kindOfData_eq_derefOnce {ε : Type} (data : Value ε)
    (h : kindOfData data = Kind.Struct ∨ kindOfData data = Kind.Slice ∨
      kindOfData data = Kind.Map ∨ isStructured data = true) :
    kindOfData data = (derefOnce data).Kind := by
  cases data with
  | nil => rfl
  | direct k out =>
    by_cases hk : k = Kind.Ptr
    · subst hk
      simp [kindOfData, Value.Kind, Value.Elem, isStructured, derefOnce] at h
    · simp [kindOfData, Value.Kind, derefOnce, hk]
  | pointer elem out =>
    cases elem with
    | none => rfl
    | some v => rfl

theorem isStructured_iff {ε : Type} (data : Value ε) :
    isStructured data = true ↔
      (kindOfData data = Kind.Struct ∨ kindOfData data = Kind.Slice ∨
        kindOfData data = Kind.Map) := by
  constructor
  · intro h
    have e := kindOfData_eq_derefOnce data (Or.inr (Or.inr (Or.inr h)))
    rw [e]
    simpa [isStructured] using h
  · intro h
    have e : kindOfData data = (derefOnce data).Kind := by
      apply kindOfData_eq_derefOnce
      rcases h with h | h | h
      · exact Or.inl h
      · exact Or.inr (Or.inl h)
      · exact Or.inr (Or.inr (Or.inl h))
    rw [e] at h
    simpa [isStructured] using h

theorem writeData_structured {σ ε : Type} (c : Chunking) (w : stringWriter σ ε) (st : σ)
    (data : Value ε) (h : isStructured data = true) :
    writeData c w st data =
      match w.WriteString st (lit "data:") with
      | (st, some err) => (st, some err)
      | (st, none) =>
        match jsonEncode w st data with
        | (st, some err) => (st, some err)
        | (st, none) => w.WriteString st (lit "\n") := by
  rcases (isStructured_iff data).1 h with hk | hk | hk <;> simp only [writeData, hk]

theorem writeData_unstructured {σ ε : Type} (c : Chunking) (w : stringWriter σ ε) (st : σ)
    (data : Value ε) (h : isStructured data = false) :
    writeData c w st data =
      match w.WriteString st (lit "data:") with
      | (st, some err) => (st, some err)
      | (st, none) =>
        match dataReplacer.WriteString c w st (Sprint data) with
        | (st, some err) => (st, some err)
        | (st, none) => w.WriteString st (lit "\n\n") := by
  have hn : ¬ (kindOfData data = Kind.Struct ∨ kindOfData data = Kind.Slice ∨
      kindOfData data = Kind.Map) := by
    rw [← isStructured_iff]; simp [h]
  unfold writeData
  generalize kindOfData data = k at hn
  cases k <;> simp at hn ⊢

theorem writeData_buffer_scalar {ε : Type} (c : Chunking) (buf : Bytes) (data : Value ε)
    (h : isStructured data = false) :
    writeData c (checkWriter (buffer ε)) buf data =
      (buf ++ (lit "data:" ++ escapeData (Sprint data) ++ [10, 10]), none) := by
  rw [writeData_unstructured c _ buf data h]
  simp [buffer_write, WriteString_buffer, dataReplacer_Replace, lit_blank_line]

theorem writeData_buffer_json {ε : Type} (c : Chunking) (buf : Bytes) (data : Value ε)
    (h : isStructured data = true) :
    writeData c (checkWriter (buffer ε)) buf data =
      match Marshal data with
      | .ok doc => (buf ++ (lit "data:" ++ doc ++ [10, 10]), none)
      | .error err => (buf ++ lit "data:", some err) := by
  rw [writeData_structured c _ buf data h]
  cases hm : Marshal data with
  | ok doc => simp [buffer_write, jsonEncode, hm, lit_newline]
  | error err => simp [buffer_write, jsonEncode, hm]

theorem writeData_buffer_fst {ε : Type} (c : Chunking) (buf : Bytes) (data : Value ε) :
    (writeData c (checkWriter (buffer ε)) buf data).1 =
      buf ++ (writeData c (checkWriter (buffer ε)) [] data).1 := by
  cases h : isStructured data with
  | false => simp [writeData_buffer_scalar c _ data h]
  | true =>
    simp only [writeData_buffer_json c _ data h]
    cases Marshal data <;> simp

theorem writeData_buffer_snd {ε : Type} (c : Chunking) (buf : Bytes) (data : Value ε) :
    (writeData c (checkWriter (buffer ε)) buf data).2 =
      (writeData c (checkWriter (buffer ε)) [] data).2 := by
  cases h : isStructured data with
  | false => simp [writeData_buffer_scalar c _ data h]
  | true =>
    simp only [writeData_buffer_json c _ data h]
    cases Marshal data <;> simp

theorem Encode_buffer {ε : Type} (c : Chunking) (buf : Bytes) (ev : Event ε) :
    Encode c (buffer ε) buf ev =
      writeData c (checkWriter (buffer ε))
        (buf ++ ((if ev.Id = [] then [] else lit "id:" ++ escapeField ev.Id ++ [10])
          ++ (if ev.Event = [] then [] else lit "event:" ++ escapeField ev.Event ++ [10])
          ++ (if ev.Retry = 0 then [] else lit "retry:" ++ FormatUint ev.Retry ++ [10])))
        ev.Data := by
  simp only [Encode, writeId_buffer, writeEvent_buffer, writeRetry_buffer, List.append_assoc]

/-! ## Field order -/

/-- C1: on a sink whose writes never fail, what `Encode` appends is the id field (there only
if `Id` is non-empty), then the event field (there only if `Event` is non-empty), then the
retry field (there only if `Retry > 0`), then the data field, which is always there and
begins with `data:`; the fields come in this order and in no other. -/
theorem Encode_field_order {ε : Type} (c : Chunking) (buf : Bytes) (ev : Event ε) :
    (Encode c (buffer ε) buf ev).1 =
      buf ++ ((if ev.Id = [] then [] else lit "id:" ++ escapeField ev.Id ++ [10])
        ++ (if ev.Event = [] then [] else lit "event:" ++ escapeField ev.Event ++ [10])
        ++ (if ev.Retry = 0 then [] else lit "retry:" ++ FormatUint ev.Retry ++ [10])
        ++ (writeData c (checkWriter (buffer ε)) [] ev.Data).1)
    ∧ lit "data:" <+: (writeData c (checkWriter (buffer ε)) [] ev.Data).1 := by
  constructor
  · rw [Encode_buffer, writeData_buffer_fst]
    simp only [List.append_assoc]
  · cases h : isStructured ev.Data with
    | false =>
      rw [writeData_buffer_scalar c _ _ h]
      exact ⟨escapeData (Sprint ev.Data) ++ [10, 10], by simp⟩
    | true =>
      rw [writeData_buffer_json c _ _ h]
      cases Marshal ev.Data with
      | ok doc => exact ⟨doc ++ [10, 10], by simp⟩
      | error err => exact ⟨[], by simp⟩

/-! ## The data field -/

/-- C2: for a scalar data value with textual form `t`, `writeData` writes `data:`, then `t`
with every newline replaced by a newline followed by `data:` and every carriage return
replaced by backslash and `r`, then two newlines; the scalar `line1<LF>line2` is written as
`data:line1<LF>data:line2<LF><LF>`. -/
theorem writeData_scalar {ε : Type} (c : Chunking) (buf : Bytes) (data : Value ε)
    (h : isStructured data = false) :
    writeData c (checkWriter (buffer ε)) buf data =
      (buf ++ (lit "data:" ++ escapeData (Sprint data) ++ [10, 10]), none)
    ∧ (Sprint data = lit "line1\nline2" →
        (writeData c (checkWriter (buffer ε)) [] data).1 = lit "data:line1\ndata:line2\n\n") := by
  refine ⟨writeData_buffer_scalar c buf data h, ?_⟩
  intro ht
  rw [writeData_buffer_scalar c [] data h, ht]
  show [] ++ (lit "data:" ++ escapeData (lit "line1\nline2") ++ [10, 10]) = _
  decide

/-- The Go string `line1<LF>line2` is a scalar, and `writeData_scalar` applies to it. -/
theorem writeData_scalar_witness :
    isStructured twoLines = false ∧
    (writeData Chunking.whole (checkWriter (buffer String)) [] twoLines =
      ([] ++ (lit "data:" ++ escapeData (Sprint twoLines) ++ [10, 10]), none)
    ∧ (Sprint twoLines = lit "line1\nline2" →
        (writeData Chunking.whole (checkWriter (buffer String)) [] twoLines).1 =
          lit "data:line1\ndata:line2\n\n")) :=
  ⟨by decide, writeData_scalar Chunking.whole [] twoLines (by decide)⟩

/-- C3, as stated, fails: for the record `{"a":1}` the data field does not end after one
newline; the JSON encoder terminates the document with a newline and `writeData` writes
another one. -/
theorem writeData_json_single_newline_fails :
    isStructured recordA1 = true ∧
    Marshal recordA1 = .ok (lit "\x7b\"a\":1\x7d") ∧
    (writeData Chunking.whole (checkWriter (buffer String)) [] recordA1).1 ≠
      lit "data:" ++ lit "\x7b\"a\":1\x7d" ++ [10] ∧
    (writeData Chunking.whole (checkWriter (buffer String)) [] recordA1).1 =
      lit "data:\x7b\"a\":1\x7d\n\n" := by
  refine ⟨by decide, rfl, by decide, by decide⟩

/-- C3, amended: for a structured data value that the JSON serializer encodes as the
document `doc`, `writeData` writes `data:`, then `doc`, then exactly two newlines (the one
that ends the encoder output and the one `writeData` adds), and returns no error. -/
theorem writeData_json {ε : Type} (c : Chunking) (buf : Bytes) (data : Value ε) (doc : Bytes)
    (h : isStructured data = true) (hdoc : Marshal data = .ok doc) :
    writeData c (checkWriter (buffer ε)) buf data =
      (buf ++ (lit "data:" ++ doc ++ [10, 10]), none) := by
  rw [writeData_buffer_json c buf data h, hdoc]

/-- The record `{"a":1}` is structured and encodable, and `writeData_json` applies to it. -/
theorem writeData_json_witness :
    isStructured recordA1 = true ∧ Marshal recordA1 = .ok (lit "\x7b\"a\":1\x7d") ∧
    writeData Chunking.whole (checkWriter (buffer String)) [] recordA1 =
      ([] ++ (lit "data:" ++ lit "\x7b\"a\":1\x7d" ++ [10, 10]), none) :=
  ⟨by decide, rfl, writeData_json Chunking.whole [] recordA1 _ (by decide) rfl⟩

/-! ## The id and event fields -/

theorem escapeField_no_line_break (v : Bytes) : ∀ b ∈ escapeField v, b ≠ 10 ∧ b ≠ 13 := by
  intro b hb
  simp only [escapeField, List.mem_flatMap] at hb
  obtain ⟨a, _, hba⟩ := hb
  by_cases h10 : a = 10
  · subst h10
    simp at hba
    rcases hba with rfl | rfl <;> decide
  · by_cases h13 : a = 13
    · subst h13
      simp at hba
      rcases hba with rfl | rfl <;> decide
    · simp [h10, h13] at hba
      subst hba
      exact ⟨h10, h13⟩

/-- C5: for a non-empty value, `writeId` writes `id:` and `writeEvent` writes `event:`, then
the value with every newline replaced by backslash `n` and every carriage return by
backslash `r`, then one newline; before that trailing newline the line holds no raw newline
and no raw carriage return. -/
theorem writeId_writeEvent_escape {ε : Type} (c : Chunking) (buf v : Bytes) (hv : v ≠ []) :
    writeId c (checkWriter (buffer ε)) buf v =
      (buf ++ (lit "id:" ++ escapeField v ++ [10]), none)
    ∧ writeEvent c (checkWriter (buffer ε)) buf v =
      (buf ++ (lit "event:" ++ escapeField v ++ [10]), none)
    ∧ (∀ b ∈ lit "id:" ++ escapeField v, b ≠ 10 ∧ b ≠ 13)
    ∧ (∀ b ∈ lit "event:" ++ escapeField v, b ≠ 10 ∧ b ≠ 13) := by
  refine ⟨by simp [writeId_buffer, hv], by simp [writeEvent_buffer, hv], ?_, ?_⟩
  · intro b hb
    rcases List.mem_append.1 hb with hb | hb
    · have hl : ∀ x ∈ lit "id:", x ≠ 10 ∧ x ≠ 13 := by decide
      exact hl b hb
    · exact escapeField_no_line_break v b hb
  · intro b hb
    rcases List.mem_append.1 hb with hb | hb
    · have hl : ∀ x ∈ lit "event:", x ≠ 10 ∧ x ≠ 13 := by decide
      exact hl b hb
    · exact escapeField_no_line_break v b hb

/-- The value `a<LF>b<CR>` is not empty, and `writeId_writeEvent_escape` applies to it. -/
theorem writeId_writeEvent_escape_witness :
    lit "a\nb\r" ≠ [] ∧
    (writeId Chunking.whole (checkWriter (buffer String)) [] (lit "a\nb\r") =
      ([] ++ (lit "id:" ++ escapeField (lit "a\nb\r") ++ [10]), none)
    ∧ writeEvent Chunking.whole (checkWriter (buffer String)) [] (lit "a\nb\r") =
      ([] ++ (lit "event:" ++ escapeField (lit "a\nb\r") ++ [10]), none)
    ∧ (∀ b ∈ lit "id:" ++ escapeField (lit "a\nb\r"), b ≠ 10 ∧ b ≠ 13)
    ∧ (∀ b ∈ lit "event:" ++ escapeField (lit "a\nb\r"), b ≠ 10 ∧ b ≠ 13)) :=
  ⟨by decide, writeId_writeEvent_escape Chunking.whole [] (lit "a\nb\r") (by decide)⟩

/-! ## Lemmas: decimal digits -/

theorem digitByte_toNat (d : Nat) (h : d < 10) : (digitByte d).toNat = 48 + d := by
  simp [digitByte, UInt8.toNat, UInt8.ofNat, Fin.ofNat]
  omega

theorem formatBits_parse (fuel : Nat) :
    ∀ (u : Nat) (acc : Bytes), u < fuel →
      (formatBits fuel u acc).foldl (fun a b => 10 * a + (b.toNat - 48)) 0 =
        acc.foldl (fun a b => 10 * a + (b.toNat - 48)) u := by
  induction fuel with
  | zero => intro u acc h; omega
  | succ fuel ih =>
    intro u acc h
    by_cases hu : u < 10
    · simp [formatBits, hu, digitByte_toNat u hu]
    · have hlt : u / 10 < fuel := by omega
      have hd : u % 10 < 10 := Nat.mod_lt _ (by decide)
      simp only [formatBits, hu, if_false]
      rw [ih (u / 10) _ hlt]
      simp only [List.foldl_cons, digitByte_toNat _ hd]
      congr 1
      omega

theorem formatBits_digits (fuel : Nat) :
    ∀ (u : Nat) (acc : Bytes), ∀ b ∈ formatBits fuel u acc,
      (48 ≤ b.toNat ∧ b.toNat ≤ 57) ∨ b ∈ acc := by
  induction fuel with
  | zero => intro u acc b hb; exact Or.inr hb
  | succ fuel ih =>
    intro u acc b hb
    by_cases hu : u < 10
    · simp only [formatBits, hu, if_true, List.mem_cons] at hb
      rcases hb with rfl | hb
      · left; rw [digitByte_toNat u hu]; omega
      · exact Or.inr hb
    · have hd : u % 10 < 10 := Nat.mod_lt _ (by decide)
      simp only [formatBits, hu, if_false] at hb
      rcases ih _ _ b hb with h | h
      · exact Or.inl h
      · rcases List.mem_cons.1 h with rfl | h
        · left; rw [digitByte_toNat _ hd]; omega
        · exact Or.inr h

theorem formatBits_head (fuel : Nat) :
    ∀ (u : Nat) (acc : Bytes), 0 < u → u < fuel →
      ∃ d rest, 1 ≤ d ∧ d < 10 ∧ formatBits fuel u acc = digitByte d :: rest := by
  induction fuel with
  | zero => intro u acc _ h; omega
  | succ fuel ih =>
    intro u acc hpos h
    by_cases hu : u < 10
    · exact ⟨u, acc, hpos, hu, by simp [formatBits, hu]⟩
    · have hlt : u / 10 < fuel := by omega
      have hq : 0 < u / 10 := by omega
      simp only [formatBits, hu, if_false]
      exact ih _ _ hq hlt

theorem FormatUint_parse (u : Nat) : parseDecimal (FormatUint u) = u := by
  simp [parseDecimal, FormatUint, formatBits_parse (u + 1) u [] (Nat.lt_succ_self u)]

theorem FormatUint_digits (u : Nat) :
    ∀ b ∈ FormatUint u, 48 ≤ b.toNat ∧ b.toNat ≤ 57 := by
  intro b hb
  rcases formatBits_digits (u + 1) u [] b hb with h | h
  · exact h
  · simp at h

theorem FormatUint_head (u : Nat) (h : 0 < u) :
    ∃ b rest, FormatUint u = b :: rest ∧ 49 ≤ b.toNat ∧ b.toNat ≤ 57 := by
  obtain ⟨d, rest, h1, h10, e⟩ := formatBits_head (u + 1) u [] h (Nat.lt_succ_self u)
  exact ⟨digitByte d, rest, e, by rw [digitByte_toNat d h10]; omega,
    by rw [digitByte_toNat d h10]; omega⟩

theorem FormatUint_no_line_break (u : Nat) : ∀ b ∈ FormatUint u, b ≠ 10 ∧ b ≠ 13 := by
  intro b hb
  have h := FormatUint_digits u b hb
  constructor
  · rintro rfl; revert h; decide
  · rintro rfl; revert h; decide

/-! ## Lemmas: splitting at newlines -/

theorem lines_ne_nil (s : Bytes) : lines s ≠ [] := by
  cases s with
  | nil => simp [lines]
  | cons b s =>
    by_cases h : b = 10
    · simp [lines, h]
    · cases hl : lines s <;> simp [lines, h, hl]

theorem lines_of_no_newline (a : Bytes) (h : (10 : UInt8) ∉ a) : lines a = [a] := by
  induction a with
  | nil => rfl
  | cons b a ih =>
    have hb : b ≠ 10 := fun e => h (by simp [e])
    have ha : (10 : UInt8) ∉ a := fun e => h (List.mem_cons_of_mem _ e)
    simp [lines, hb, ih ha]

theorem lines_append_newline (a s : Bytes) (h : (10 : UInt8) ∉ a) :
    lines (a ++ 10 :: s) = a :: lines s := by
  induction a with
  | nil => simp [lines]
  | cons b a ih =>
    have hb : b ≠ 10 := fun e => h (by simp [e])
    have ha : (10 : UInt8) ∉ a := fun e => h (List.mem_cons_of_mem _ e)
    simp [lines, hb, ih ha]

theorem escapeData_cons (b : UInt8) (t : Bytes) :
    escapeData (b :: t) =
      (if b = 10 then 10 :: lit "data:" else if b = 13 then [92, 114] else [b])
        ++ escapeData t := by
  simp [escapeData, List.flatMap_cons]

theorem lit_data_no_newline : (10 : UInt8) ∉ lit "data:" := by decide

/-- Every line of a scalar data field is empty or begins with the line prefix in force:
`p` for the first line and `data:` for the continuation lines. -/
theorem data_lines_begin (t : Bytes) :
    ∀ p : Bytes, (10 : UInt8) ∉ p →
      ∀ l ∈ lines (p ++ escapeData t ++ [10, 10]),
        l = [] ∨ p <+: l ∨ lit "data:" <+: l := by
  induction t with
  | nil =>
    intro p hp l hl
    have e : p ++ escapeData [] ++ [10, 10] = p ++ 10 :: [10] := by simp [escapeData]
    rw [e, lines_append_newline p _ hp] at hl
    have e2 : lines [10] = [[], []] := by decide
    rw [e2] at hl
    simp only [List.mem_cons, List.mem_singleton, List.not_mem_nil, or_false] at hl
    rcases hl with rfl | rfl | rfl
    · exact Or.inr (Or.inl (List.prefix_refl _))
    · exact Or.inl rfl
    · exact Or.inl rfl
  | cons b t ih =>
    intro p hp l hl
    rw [escapeData_cons] at hl
    by_cases h10 : b = 10
    · have e : p ++ ((if b = 10 then 10 :: lit "data:" else if b = 13 then [92, 114] else [b])
          ++ escapeData t) ++ [10, 10] = p ++ 10 :: (lit "data:" ++ escapeData t ++ [10, 10]) := by
        simp [h10]
      rw [e, lines_append_newline p _ hp] at hl
      rcases List.mem_cons.1 hl with rfl | hl
      · exact Or.inr (Or.inl (List.prefix_refl _))
      · rcases ih (lit "data:") lit_data_no_newline l hl with h | h | h
        · exact Or.inl h
        · exact Or.inr (Or.inr h)
        · exact Or.inr (Or.inr h)
    · by_cases h13 : b = 13
      · have e : p ++ ((if b = 10 then 10 :: lit "data:" else if b = 13 then [92, 114]
            else [b]) ++ escapeData t) ++ [10, 10] =
            (p ++ [92, 114]) ++ escapeData t ++ [10, 10] := by
          simp [h13]
        rw [e] at hl
        have hp2 : (10 : UInt8) ∉ p ++ [92, 114] := by
          intro hm
          rcases List.mem_append.1 hm with hm | hm
          · exact hp hm
          · revert hm; decide
        rcases ih _ hp2 l hl with h | h | h
        · exact Or.inl h
        · exact Or.inr (Or.inl ((List.prefix_append p _).trans h))
        · exact Or.inr (Or.inr h)
      · have e : p ++ ((if b = 10 then 10 :: lit "data:" else if b = 13 then [92, 114]
            else [b]) ++ escapeData t) ++ [10, 10] = (p ++ [b]) ++ escapeData t ++ [10, 10] := by
          simp [h10, h13]
        rw [e] at hl
        have hp2 : (10 : UInt8) ∉ p ++ [b] := by
          intro hm
          rcases List.mem_append.1 hm with hm | hm
          · exact hp hm
          · simp at hm; exact h10 hm.symm
        rcases ih _ hp2 l hl with h | h | h
        · exact Or.inl h
        · exact Or.inr (Or.inl ((List.prefix_append p _).trans h))
        · exact Or.inr (Or.inr h)

theorem lines_opt_field (cond : Prop) [Decidable cond] (a rest : Bytes)
    (h : (10 : UInt8) ∉ a) :
    lines ((if cond then [] else a ++ [10]) ++ rest) =
      (if cond then [] else [a]) ++ lines rest := by
  by_cases hc : cond
  · simp [hc]
  · have e : a ++ [10] ++ rest = a ++ 10 :: rest := by simp
    simp only [hc, if_false, e, lines_append_newline a rest h]
    rfl

theorem id_line_no_newline (v : Bytes) : (10 : UInt8) ∉ lit "id:" ++ escapeField v := by
  intro hm
  rcases List.mem_append.1 hm with hm | hm
  · revert hm; decide
  · exact (escapeField_no_line_break v _ hm).1 rfl

theorem event_line_no_newline (v : Bytes) : (10 : UInt8) ∉ lit "event:" ++ escapeField v := by
  intro hm
  rcases List.mem_append.1 hm with hm | hm
  · revert hm; decide
  · exact (escapeField_no_line_break v _ hm).1 rfl

theorem retry_line_no_newline (u : Nat) : (10 : UInt8) ∉ lit "retry:" ++ FormatUint u := by
  intro hm
  rcases List.mem_append.1 hm with hm | hm
  · revert hm; decide
  · exact (FormatUint_no_line_break u _ hm).1 rfl

/-- The output of `Encode` for an event with scalar data, written to an empty buffer. -/
theorem Encode_scalar_output {ε : Type} (c : Chunking) (ev : Event ε)
    (h : isStructured ev.Data = false) :
    (Encode c (buffer ε) [] ev).1 =
      (if ev.Id = [] then [] else lit "id:" ++ escapeField ev.Id ++ [10])
        ++ ((if ev.Event = [] then [] else lit "event:" ++ escapeField ev.Event ++ [10])
        ++ ((if ev.Retry = 0 then [] else lit "retry:" ++ FormatUint ev.Retry ++ [10])
        ++ (lit "data:" ++ escapeData (Sprint ev.Data) ++ [10, 10]))) := by
  rw [Encode_buffer, writeData_buffer_scalar c _ _ h]
  simp only [List.append_assoc, List.nil_append]

/-- The lines of the output of `Encode` for an event with scalar data. -/
theorem Encode_scalar_lines {ε : Type} (c : Chunking) (ev : Event ε)
    (h : isStructured ev.Data = false) :
    lines (Encode c (buffer ε) [] ev).1 =
      (if ev.Id = [] then [] else [lit "id:" ++ escapeField ev.Id])
        ++ ((if ev.Event = [] then [] else [lit "event:" ++ escapeField ev.Event])
        ++ ((if ev.Retry = 0 then [] else [lit "retry:" ++ FormatUint ev.Retry])
        ++ lines (lit "data:" ++ escapeData (Sprint ev.Data) ++ [10, 10]))) := by
  rw [Encode_scalar_output c ev h,
    lines_opt_field _ _ _ (id_line_no_newline ev.Id),
    lines_opt_field _ _ _ (event_line_no_newline ev.Event),
    lines_opt_field _ _ _ (retry_line_no_newline ev.Retry)]

theorem head_of_isPrefix {p l : Bytes} {a : UInt8} (h : p <+: l) (hp : p.head? = some a) :
    l.head? = some a := by
  obtain ⟨t, rfl⟩ := h
  cases p with
  | nil => simp at hp
  | cons b p => simpa using hp

/-! ## The retry field -/

/-- C6: with `Retry` zero `writeRetry` writes nothing, whatever the sink, and no line of the
output of `Encode` for an event with scalar data begins with `retry:`; with `Retry > 0` it
writes `retry:`, the decimal digits of `Retry` and one newline, where the digits are ASCII
digits only (no sign), the first is not `0`, and reading them as a numeral gives `Retry`. -/
theorem writeRetry_decimal {ε : Type} (c : Chunking) (ev : Event ε) :
    (ev.Retry = 0 →
      (∀ {σ : Type} (w : stringWriter σ ε) (st : σ),
        writeRetry w st ev.Retry = (st, none)) ∧
      (isStructured ev.Data = false →
        ∀ l ∈ lines (Encode c (buffer ε) [] ev).1, ¬ lit "retry:" <+: l))
    ∧ (ev.Retry > 0 →
      (∀ buf : Bytes, writeRetry (checkWriter (buffer ε)) buf ev.Retry =
        (buf ++ (lit "retry:" ++ FormatUint ev.Retry ++ [10]), none)) ∧
      (∀ b ∈ FormatUint ev.Retry, 48 ≤ b.toNat ∧ b.toNat ≤ 57) ∧
      (FormatUint ev.Retry).head? ≠ some 48 ∧
      parseDecimal (FormatUint ev.Retry) = ev.Retry) := by
  constructor
  · intro h0
    refine ⟨?_, ?_⟩
    · intro σ w st
      simp [writeRetry, h0]
    · intro hs l hl hr
      have hhead : l.head? = some 114 := head_of_isPrefix hr (by decide)
      rw [Encode_scalar_lines c ev hs] at hl
      simp only [h0, if_true, List.nil_append, List.mem_append] at hl
      rcases hl with hl | hl | hl
      · by_cases hid : ev.Id = []
        · simp [hid] at hl
        · simp only [hid, if_false, List.mem_singleton] at hl
          have h2 : l.head? = some 105 :=
            head_of_isPrefix (hl ▸ List.prefix_append _ _) (by decide)
          rw [hhead] at h2
          revert h2; decide
      · by_cases hevn : ev.Event = []
        · simp [hevn] at hl
        · simp only [hevn, if_false, List.mem_singleton] at hl
          have h2 : l.head? = some 101 :=
            head_of_isPrefix (hl ▸ List.prefix_append _ _) (by decide)
          rw [hhead] at h2
          revert h2; decide
      · rcases data_lines_begin (Sprint ev.Data) (lit "data:") lit_data_no_newline l hl
          with h | h | h
        · rw [h] at hhead; simp at hhead
        · have h2 : l.head? = some 100 := head_of_isPrefix h (by decide)
          rw [hhead] at h2
          revert h2; decide
        · have h2 : l.head? = some 100 := head_of_isPrefix h (by decide)
          rw [hhead] at h2
          revert h2; decide
  · intro hpos
    have hne : ev.Retry ≠ 0 := Nat.pos_iff_ne_zero.1 hpos
    refine ⟨?_, FormatUint_digits _, ?_, FormatUint_parse _⟩
    · intro buf
      simp [writeRetry_buffer, hne]
    · obtain ⟨b, rest, e, h1, _⟩ := FormatUint_head ev.Retry hpos
      rw [e]
      intro hb
      simp only [List.head?_cons, Option.some.injEq] at hb
      rw [hb] at h1
      revert h1; decide

/-- The retry values 0 and 1500 fall under the two parts of `writeRetry_decimal`. -/
theorem writeRetry_decimal_witness :
    ((∀ {σ : Type} (w : stringWriter σ String) (st : σ), writeRetry w st 0 = (st, none)) ∧
      (isStructured twoLines = false →
        ∀ l ∈ lines (Encode Chunking.whole (buffer String) []
          ⟨lit "retry:1", lit "retry:2", 0, twoLines⟩).1, ¬ lit "retry:" <+: l))
    ∧ ((∀ buf : Bytes, writeRetry (checkWriter (buffer String)) buf 1500 =
        (buf ++ (lit "retry:" ++ FormatUint 1500 ++ [10]), none)) ∧
      (∀ b ∈ FormatUint 1500, 48 ≤ b.toNat ∧ b.toNat ≤ 57) ∧
      (FormatUint 1500).head? ≠ some 48 ∧
      parseDecimal (FormatUint 1500) = 1500) :=
  ⟨(writeRetry_decimal Chunking.whole ⟨lit "retry:1", lit "retry:2", 0, twoLines⟩).1 rfl,
   (writeRetry_decimal Chunking.whole
      (⟨[], [], 1500, twoLines⟩ : Event String)).2 (by decide)⟩

/-! ## Lemmas: blank lines -/

theorem sparse_of_no_newline (a : Bytes) (h : (10 : UInt8) ∉ a) : Sparse a := by
  induction a with
  | nil => exact List.chain'_nil
  | cons b a ih =>
    have hb : b ≠ 10 := fun e => h (by simp [e])
    have ha : (10 : UInt8) ∉ a := fun e => h (List.mem_cons_of_mem _ e)
    exact List.chain'_cons'.2 ⟨fun y _ => Or.inl hb, ih ha⟩

theorem joinable_nil : Joinable [] := ⟨List.chain'_nil, by simp⟩

theorem joinable_append {a b : Bytes} (ha : Joinable a) (hb : Joinable b) :
    Joinable (a ++ b) := by
  refine ⟨List.chain'_append.2 ⟨ha.1, hb.1, ?_⟩, ?_⟩
  · intro x _ y hy
    right
    rintro rfl
    exact hb.2 (by simpa using hy)
  · cases a with
    | nil => simpa using hb.2
    | cons x a => simpa using ha.2

theorem joinable_line (a : Bytes) (h : (10 : UInt8) ∉ a) (hne : a ≠ []) :
    Joinable (a ++ [10]) := by
  refine ⟨List.chain'_append.2 ⟨sparse_of_no_newline a h, List.chain'_singleton _, ?_⟩, ?_⟩
  · intro x hx y _
    left
    rintro rfl
    exact h (List.mem_of_mem_getLast? hx)
  · cases a with
    | nil => exact absurd rfl hne
    | cons x a =>
      have hx : x ≠ 10 := fun e => h (by simp [e])
      simpa using hx

theorem joinable_opt_line (cond : Prop) [Decidable cond] (a : Bytes) (h : (10 : UInt8) ∉ a)
    (hne : a ≠ []) : Joinable (if cond then [] else a ++ [10]) := by
  by_cases hc : cond
  · simpa [hc] using joinable_nil
  · simpa [hc] using joinable_line a h hne

theorem escapeData_sparse (t : Bytes) :
    Sparse (escapeData t) ∧ (escapeData t).getLast? ≠ some 10 := by
  induction t with
  | nil => exact ⟨List.chain'_nil, by simp [escapeData]⟩
  | cons b t ih =>
    rw [escapeData_cons]
    have key : ∀ f : Bytes, Sparse f → f ≠ [] → f.getLast? ≠ some 10 →
        Sparse (f ++ escapeData t) ∧ (f ++ escapeData t).getLast? ≠ some 10 := by
      intro f hf hne hlast
      refine ⟨List.chain'_append.2 ⟨hf, ih.1, ?_⟩, ?_⟩
      · intro x hx y _
        left
        rintro rfl
        exact hlast hx
      · rw [List.getLast?_append]
        cases hl : (escapeData t).getLast? with
        | none => simpa using hlast
        | some z =>
          have := ih.2
          rw [hl] at this
          simpa using this
    by_cases h10 : b = 10
    · simp only [h10, if_true]
      refine key _ (List.chain'_cons'.2 ⟨?_, sparse_of_no_newline _ lit_data_no_newline⟩)
        (by decide) (by decide)
      intro y hy
      right
      rintro rfl
      revert hy; decide
    · by_cases h13 : b = 13
      · have e13 : (if b = 10 then 10 :: lit "data:" else if b = 13 then [92, 114] else [b])
            = [92, 114] := by simp [h13]
        rw [e13]
        exact key _ (sparse_of_no_newline _ (by decide)) (by decide) (by decide)
      · simp only [h10, h13, if_false]
        exact key [b] (List.chain'_singleton _) (by simp) (by simpa using h10)

/-- The data field of a scalar value without its two final newlines: it holds no blank
line, begins with `d` and does not end with a newline. -/
theorem data_field_sparse (t : Bytes) :
    Joinable (lit "data:" ++ escapeData t) ∧
      (lit "data:" ++ escapeData t).getLast? ≠ some 10 := by
  have h := escapeData_sparse t
  refine ⟨⟨List.chain'_append.2
    ⟨sparse_of_no_newline _ lit_data_no_newline, h.1, ?_⟩, ?_⟩, ?_⟩
  · intro x hx y _
    left
    rintro rfl
    revert hx; decide
  · rw [List.head?_append_of_ne_nil _ (by decide)]; decide
  · rw [List.getLast?_append]
    cases hl : (escapeData t).getLast? with
    | none => decide
    | some z =>
      have := h.2
      rw [hl] at this
      simpa using this

theorem sparse_no_blank {pre post : Bytes} (h : Sparse (pre ++ 10 :: 10 :: post)) : False := by
  have h2 := (List.chain'_append.1 h).2.1
  rcases (List.chain'_cons.1 h2).1 with h3 | h3 <;> exact h3 rfl

/-! ## The blank line -/

/-- C4: for an event with scalar data, on a sink whose writes never fail, the output of
`Encode` ends with two newlines, the byte before them is not a newline, and every occurrence
of two newlines in a row is that final one: there is exactly one blank line and it ends the
data field. -/
theorem Encode_single_blank_line {ε : Type} (c : Chunking) (ev : Event ε)
    (h : isStructured ev.Data = false) :
    (∃ body : Bytes, (Encode c (buffer ε) [] ev).1 = body ++ [10, 10] ∧
      body.getLast? ≠ some 10 ∧ lit "data:" ++ escapeData (Sprint ev.Data) <:+ body)
    ∧ (∀ pre post : Bytes, (Encode c (buffer ε) [] ev).1 = pre ++ [10, 10] ++ post →
      post = []) := by
  have hout := Encode_scalar_output c ev h
  have hF : Joinable ((if ev.Id = [] then [] else lit "id:" ++ escapeField ev.Id ++ [10])
      ++ ((if ev.Event = [] then [] else lit "event:" ++ escapeField ev.Event ++ [10])
      ++ (if ev.Retry = 0 then [] else lit "retry:" ++ FormatUint ev.Retry ++ [10]))) :=
    joinable_append
      (joinable_opt_line _ _ (id_line_no_newline _)
        (List.append_ne_nil_of_left_ne_nil (by decide) _))
      (joinable_append
        (joinable_opt_line _ _ (event_line_no_newline _)
          (List.append_ne_nil_of_left_ne_nil (by decide) _))
        (joinable_opt_line _ _ (retry_line_no_newline _)
          (List.append_ne_nil_of_left_ne_nil (by decide) _)))
  have hD := data_field_sparse (Sprint ev.Data)
  have hDne : lit "data:" ++ escapeData (Sprint ev.Data) ≠ [] :=
    List.append_ne_nil_of_left_ne_nil (by decide) _
  have hX := joinable_append hF hD.1
  have hlast : (((if ev.Id = [] then [] else lit "id:" ++ escapeField ev.Id ++ [10])
      ++ ((if ev.Event = [] then [] else lit "event:" ++ escapeField ev.Event ++ [10])
      ++ (if ev.Retry = 0 then [] else lit "retry:" ++ FormatUint ev.Retry ++ [10])))
      ++ (lit "data:" ++ escapeData (Sprint ev.Data))).getLast? ≠ some 10 := by
    rw [List.getLast?_append_of_ne_nil _ hDne]
    exact hD.2
  have hbody : (Encode c (buffer ε) [] ev).1 =
      (((if ev.Id = [] then [] else lit "id:" ++ escapeField ev.Id ++ [10])
      ++ ((if ev.Event = [] then [] else lit "event:" ++ escapeField ev.Event ++ [10])
      ++ (if ev.Retry = 0 then [] else lit "retry:" ++ FormatUint ev.Retry ++ [10])))
      ++ (lit "data:" ++ escapeData (Sprint ev.Data))) ++ [10, 10] := by
    rw [hout]; simp only [List.append_assoc]
  refine ⟨⟨_, hbody, hlast, List.suffix_append _ _⟩, ?_⟩
  intro pre post hpp
  rw [hbody] at hpp
  rcases List.eq_nil_or_concat post with hnil | ⟨post1, z, hz⟩
  · exact hnil
  · exfalso
    subst hz
    have e1 : ((((if ev.Id = [] then [] else lit "id:" ++ escapeField ev.Id ++ [10])
        ++ ((if ev.Event = [] then [] else lit "event:" ++ escapeField ev.Event ++ [10])
        ++ (if ev.Retry = 0 then [] else lit "retry:" ++ FormatUint ev.Retry ++ [10])))
        ++ (lit "data:" ++ escapeData (Sprint ev.Data))) ++ [10]) ++ [10] =
        (pre ++ 10 :: 10 :: post1) ++ [z] := by
      rw [List.concat_eq_append] at hpp
      simpa [List.append_assoc] using hpp
    have e2 := (List.append_inj' e1 rfl).1
    have hs : Sparse ((((if ev.Id = [] then [] else lit "id:" ++ escapeField ev.Id ++ [10])
        ++ ((if ev.Event = [] then [] else lit "event:" ++ escapeField ev.Event ++ [10])
        ++ (if ev.Retry = 0 then [] else lit "retry:" ++ FormatUint ev.Retry ++ [10])))
        ++ (lit "data:" ++ escapeData (Sprint ev.Data))) ++ [10]) := by
      refine List.chain'_append.2 ⟨hX.1, List.chain'_singleton _, ?_⟩
      intro x hx y _
      left
      rintro rfl
      exact hlast hx
    rw [e2] at hs
    exact sparse_no_blank hs

/-- An event with the scalar data `line1<LF>line2` falls under `Encode_single_blank_line`. -/
theorem Encode_single_blank_line_witness :
    isStructured twoLines = false ∧
    ((∃ body : Bytes, (Encode Chunking.whole (buffer String) []
        ⟨lit "msg", lit "7", 3, twoLines⟩).1 = body ++ [10, 10] ∧
      body.getLast? ≠ some 10 ∧ lit "data:" ++ escapeData (Sprint twoLines) <:+ body)
    ∧ (∀ pre post : Bytes, (Encode Chunking.whole (buffer String) []
        ⟨lit "msg", lit "7", 3, twoLines⟩).1 = pre ++ [10, 10] ++ post → post = [])) :=
  ⟨by decide, Encode_single_blank_line Chunking.whole ⟨lit "msg", lit "7", 3, twoLines⟩
    (by decide)⟩

/-! ## Lemmas: the sequence of writes -/

theorem andThen_pure {σ ε : Type} (r : σ × Option ε) : andThen r (fun s => (s, none)) = r := by
  rcases r with ⟨s, _ | e⟩ <;> rfl

theorem andThen_assoc {σ ε : Type} (r : σ × Option ε) (k1 k2 : σ → σ × Option ε) :
    andThen (andThen r k1) k2 = andThen r (fun s => andThen (k1 s) k2) := by
  rcases r with ⟨s, _ | e⟩ <;> rfl

theorem writeAll_cons {σ ε : Type} (w : stringWriter σ ε) (st : σ) (p : Bytes)
    (ps : List Bytes) :
    writeAll w st (p :: ps) = andThen (w.WriteString st p) (fun s => writeAll w s ps) := rfl

theorem writeAll_nil {σ ε : Type} (w : stringWriter σ ε) (st : σ) :
    writeAll w st [] = (st, none) := rfl

theorem writeAll_singleton {σ ε : Type} (w : stringWriter σ ε) (st : σ) (p : Bytes) :
    writeAll w st [p] = w.WriteString st p := by
  rw [writeAll_cons]
  exact andThen_pure _

theorem writeAll_append {σ ε : Type} (w : stringWriter σ ε) (ps qs : List Bytes) :
    ∀ st : σ, writeAll w st (ps ++ qs) =
      andThen (writeAll w st ps) (fun s => writeAll w s qs) := by
  induction ps with
  | nil => intro st; rfl
  | cons p ps ih =>
    intro st
    simp only [List.cons_append, writeAll_cons, andThen_assoc]
    congr 1
    funext s
    exact ih s

theorem writeId_eq_writeAll {σ ε : Type} (c : Chunking) (w : stringWriter σ ε) (st : σ)
    (id : Bytes) : writeId c w st id = writeAll w st (idWrites c id) := by
  by_cases h : id.length > 0
  · simp only [writeId, idWrites, h, if_true, writeAll_cons, writeAll_append,
      writeAll_nil, andThen_pure, Replacer.WriteString]
    rfl
  · simp only [writeId, idWrites, h, if_false, writeAll]

theorem writeEvent_eq_writeAll {σ ε : Type} (c : Chunking) (w : stringWriter σ ε) (st : σ)
    (event : Bytes) : writeEvent c w st event = writeAll w st (eventWrites c event) := by
  by_cases h : event.length > 0
  · simp only [writeEvent, eventWrites, h, if_true, writeAll_cons, writeAll_append,
      writeAll_nil, andThen_pure, Replacer.WriteString]
    rfl
  · simp only [writeEvent, eventWrites, h, if_false, writeAll]

theorem writeRetry_eq_writeAll {σ ε : Type} (w : stringWriter σ ε) (st : σ) (retry : Nat) :
    writeRetry w st retry = writeAll w st (retryWrites retry) := by
  by_cases h : retry > 0
  · simp only [writeRetry, retryWrites, h, if_true, writeAll_cons, writeAll_nil, andThen_pure]
    rfl
  · simp only [writeRetry, retryWrites, h, if_false, writeAll]

theorem writeData_eq_writeAll {σ ε : Type} (c : Chunking) (w : stringWriter σ ε) (st : σ)
    (data : Value ε) :
    writeData c w st data =
      andThen (writeAll w st (dataWrites c data)) (fun s => (s, dataError data)) := by
  cases hs : isStructured data with
  | true =>
    rw [writeData_structured c w st data hs]
    rcases (isStructured_iff data).1 hs with hk | hk | hk <;>
    · simp only [dataWrites, dataError, hk, jsonEncode]
      cases Marshal data with
      | ok doc =>
        simp only [writeAll_cons, writeAll_nil, andThen_assoc, andThen_pure]
        rfl
      | error err =>
        simp only [writeAll_cons, writeAll_nil, andThen_assoc, andThen_pure]
        rfl
  | false =>
    rw [writeData_unstructured c w st data hs]
    have hn : ¬ (kindOfData data = Kind.Struct ∨ kindOfData data = Kind.Slice ∨
        kindOfData data = Kind.Map) := by
      rw [← isStructured_iff]; simp [hs]
    have hw : dataWrites c data =
        lit "data:" :: (c.chunks dataReplacer (Sprint data) ++ [lit "\n\n"]) := by
      unfold dataWrites
      generalize kindOfData data = k at hn
      cases k <;> simp at hn ⊢
    have he : dataError data = none := by
      unfold dataError
      generalize kindOfData data = k at hn
      cases k <;> simp at hn ⊢
    rw [hw, he, andThen_pure]
    simp only [writeAll_cons, writeAll_append, writeAll_nil, andThen_pure,
      Replacer.WriteString]
    rfl

/-- `Encode` performs its attempted writes in order, stops at the first one that fails, and
after the last returns the serializer's error, if any. -/
theorem Encode_eq_writeAll {σ ε : Type} (c : Chunking) (w : Writer σ ε) (st : σ)
    (ev : Event ε) :
    Encode c w st ev =
      andThen (writeAll (checkWriter w) st (attempts c ev))
        (fun s => (s, dataError ev.Data)) := by
  simp only [attempts, writeAll_append, andThen_assoc]
  simp only [Encode, writeId_eq_writeAll, writeEvent_eq_writeAll, writeRetry_eq_writeAll,
    writeData_eq_writeAll]
  rfl

/-! ## Lemmas: failing sinks -/

theorem andThen_fst {σ ε : Type} (r : σ × Option ε) (x : Option ε) :
    (andThen r (fun s => (s, x))).1 = r.1 := by
  rcases r with ⟨s, _ | e⟩ <;> rfl

/-- C8, as stated, fails: for an event with id `7` whose data is a slice that the serializer
refuses, `Encode` returns the serializer's error, but the sink holds the id line followed by
`data:`, not the id line alone. -/
theorem Encode_marshal_error_field_only_fails :
    isStructured chanSlice = true ∧
    Marshal chanSlice = .error "json: unsupported type: chan int" ∧
    Encode Chunking.whole (buffer String) [] ⟨[], lit "7", 0, chanSlice⟩ =
      (lit "id:7\ndata:", some "json: unsupported type: chan int") ∧
    (Encode Chunking.whole (buffer String) [] ⟨[], lit "7", 0, chanSlice⟩).1 ≠
      lit "id:7\n" := by
  refine ⟨by decide, rfl, rfl, by decide⟩

/-- C8, amended: for an event whose data is structured and which the serializer cannot
encode, `Encode` returns the serializer's error, and what has been written to the sink is
the id, event and retry lines followed by the label `data:` and nothing after it: no byte
of a JSON document and no terminating newline. -/
theorem Encode_marshal_error {ε : Type} (c : Chunking) (buf : Bytes) (ev : Event ε) (err : ε)
    (h : isStructured ev.Data = true) (herr : Marshal ev.Data = .error err) :
    Encode c (buffer ε) buf ev =
      (buf ++ ((if ev.Id = [] then [] else lit "id:" ++ escapeField ev.Id ++ [10])
        ++ (if ev.Event = [] then [] else lit "event:" ++ escapeField ev.Event ++ [10])
        ++ (if ev.Retry = 0 then [] else lit "retry:" ++ FormatUint ev.Retry ++ [10])
        ++ lit "data:"), some err) := by
  rw [Encode_buffer, writeData_buffer_json c _ _ h, herr]
  simp only [List.append_assoc]

/-- The event with id `7` and the slice holding a channel falls under
`Encode_marshal_error`. -/
theorem Encode_marshal_error_witness :
    isStructured chanSlice = true ∧
    Marshal chanSlice = .error "json: unsupported type: chan int" ∧
    Encode Chunking.whole (buffer String) [] ⟨[], lit "7", 0, chanSlice⟩ =
      ([] ++ ((if lit "7" = [] then [] else lit "id:" ++ escapeField (lit "7") ++ [10])
        ++ (if ([] : Bytes) = [] then [] else lit "event:" ++ escapeField [] ++ [10])
        ++ (if 0 = 0 then [] else lit "retry:" ++ FormatUint 0 ++ [10])
        ++ lit "data:"), some "json: unsupported type: chan int") :=
  ⟨by decide, rfl,
   Encode_marshal_error Chunking.whole [] ⟨[], lit "7", 0, chanSlice⟩ _ (by decide) rfl⟩

/-! ## Response headers -/

/-- C9: after `Render`, whatever the header map held before, `Content-Type` is the single
value `text/event-stream`, and `Cache-Control` is what it was if the key was present and the
single value `no-cache` otherwise; every other entry is as before. A `max-age=10` set
beforehand stays. -/
theorem Render_headers {σ ε : Type} (c : Chunking) (r : Event ε) (w : ResponseWriter σ ε)
    (resp : Response σ) :
    (r.Render c w resp).1.header (lit "Content-Type") = some [lit "text/event-stream"]
    ∧ (r.Render c w resp).1.header (lit "Cache-Control") =
        (match resp.header (lit "Cache-Control") with
         | some v => some v
         | none => some [lit "no-cache"])
    ∧ (∀ k : Bytes, k ≠ lit "Content-Type" → k ≠ lit "Cache-Control" →
        (r.Render c w resp).1.header k = resp.header k)
    ∧ (resp.header (lit "Cache-Control") = some [lit "max-age=10"] →
        (r.Render c w resp).1.header (lit "Cache-Control") = some [lit "max-age=10"]) := by
  have hne : lit "Cache-Control" ≠ lit "Content-Type" := by decide
  have hcc : (r.Render c w resp).1.header (lit "Cache-Control") =
      (match resp.header (lit "Cache-Control") with
       | some v => some v
       | none => some [lit "no-cache"]) := by
    cases hpre : resp.header (lit "Cache-Control") with
    | none => simp [Event.Render, Header.set, hne, hpre, noCache]
    | some v => simp [Event.Render, Header.set, hne, hpre]
  refine ⟨?_, hcc, ?_, ?_⟩
  · cases hpre : resp.header (lit "Cache-Control") with
    | none => simp [Event.Render, Header.set, hne, hne.symm, hpre, contentType, ContentType]
    | some v => simp [Event.Render, Header.set, hne, hpre, contentType, ContentType]
  · intro k h1 h2
    cases hpre : resp.header (lit "Cache-Control") with
    | none => simp [Event.Render, Header.set, hne, hpre, h1, h2]
    | some v => simp [Event.Render, Header.set, hne, hpre, h1, h2]
  · intro hpre
    rw [hcc, hpre]

/-- A response whose header map holds `Cache-Control: max-age=10` keeps it through
`Render`, as `Render_headers` says. -/
theorem Render_headers_witness :
    maxAgeHeader (lit "Cache-Control") = some [lit "max-age=10"] ∧
    ((⟨[], [], 0, twoLines⟩ : Event String).Render Chunking.whole
        (⟨fun _ s p => (s ++ p, none)⟩ : ResponseWriter Bytes String)
        ⟨maxAgeHeader, []⟩).1.header (lit "Cache-Control") = some [lit "max-age=10"] :=
  ⟨by decide,
   (Render_headers Chunking.whole (⟨[], [], 0, twoLines⟩ : Event String)
      (⟨fun _ s p => (s ++ p, none)⟩ : ResponseWriter Bytes String)
      ⟨maxAgeHeader, []⟩).2.2.2 (by decide)⟩

/-! ## The shape test -/

/-- C10, as stated, fails: the Go array `[2]int{1, 2}` is an ordered sequence, yet its kind
is `Array`, which the switch of `writeData` does not list; it takes the scalar arm and is
written as `data:[1 2]` with two newlines, not as the JSON document `[1,2]`. -/
theorem writeData_ordered_sequence_json_fails :
    hasStructuredShape arrayOneTwo = true ∧
    kindOfData arrayOneTwo = Kind.Array ∧
    writeData Chunking.whole (checkWriter (buffer String)) [] arrayOneTwo =
      (lit "data:[1 2]\n\n", none) ∧
    writeData Chunking.whole (checkWriter (buffer String)) [] arrayOneTwo =
      andThen ((checkWriter (buffer String)).WriteString [] (lit "data:")) (fun s =>
        andThen (dataReplacer.WriteString Chunking.whole (checkWriter (buffer String)) s
          (Sprint arrayOneTwo))
          (fun s => (checkWriter (buffer String)).WriteString s (lit "\n\n"))) ∧
    andThen ((checkWriter (buffer String)).WriteString [] (lit "data:")) (fun s =>
        andThen (jsonEncode (checkWriter (buffer String)) s arrayOneTwo)
          (fun s => (checkWriter (buffer String)).WriteString s (lit "\n"))) =
      (lit "data:[1,2]\n\n", none) ∧
    (writeData Chunking.whole (checkWriter (buffer String)) [] arrayOneTwo).1 ≠
      lit "data:[1,2]\n\n" := by
  refine ⟨by decide, rfl, rfl, rfl, rfl, by decide⟩

/-- C10, amended: `writeData` takes the JSON arm exactly when the kind of the value, after
at most one pointer dereference, is `Struct`, `Slice` or `Map`, and the scalar arm for every
other value. A pointer to a record takes the JSON arm; a pointer to a pointer to a record
and a fixed-size array take the scalar arm, and the array is the one shape the specification
calls structured that the code does not. -/
theorem writeData_arm_iff_structured {σ ε : Type} (c : Chunking) (w : stringWriter σ ε)
    (st : σ) (data : Value ε) :
    ((kindOfData data = Kind.Struct ∨ kindOfData data = Kind.Slice ∨
        kindOfData data = Kind.Map) ↔ isStructured data = true)
    ∧ (isStructured data = true →
        writeData c w st data =
          andThen (w.WriteString st (lit "data:")) (fun s =>
            andThen (jsonEncode w s data) (fun s => w.WriteString s (lit "\n"))))
    ∧ (isStructured data = false →
        writeData c w st data =
          andThen (w.WriteString st (lit "data:")) (fun s =>
            andThen (dataReplacer.WriteString c w s (Sprint data))
              (fun s => w.WriteString s (lit "\n\n"))))
    ∧ (∀ out1 out2 out3 : Rendering ε,
        isStructured (Value.pointer (some (Value.direct Kind.Struct out1)) out2) = true ∧
        isStructured (Value.pointer (some
          (Value.pointer (some (Value.direct Kind.Struct out1)) out2)) out3) = false)
    ∧ (∀ out1 out2 : Rendering ε,
        isStructured (Value.direct Kind.Array out1) = false ∧
        isStructured (Value.pointer (some (Value.direct Kind.Array out1)) out2) = false)
    ∧ (hasStructuredShape data = true ↔
        (isStructured data = true ∨ (derefOnce data).Kind = Kind.Array)) := by
  refine ⟨(isStructured_iff data).symm, ?_, ?_, ?_, ?_, ?_⟩
  · intro h
    rw [writeData_structured c w st data h]
    rfl
  · intro h
    rw [writeData_unstructured c w st data h]
    rfl
  · intro out1 out2 out3
    exact ⟨by simp [isStructured, derefOnce, Value.Kind],
      by simp [isStructured, derefOnce, Value.Kind]⟩
  · intro out1 out2
    exact ⟨by simp [isStructured, derefOnce, Value.Kind],
      by simp [isStructured, derefOnce, Value.Kind]⟩
  · simp only [hasStructuredShape, isStructured, decide_eq_true_eq]
    tauto

/-- A pointer to a record takes the JSON arm, a pointer to that pointer and an array take
the scalar arm, as `writeData_arm_iff_structured` says. -/
theorem writeData_arm_iff_structured_witness :
    isStructured recordPtr = true ∧ isStructured recordPtrPtr = false ∧
    isStructured arrayOneTwo = false ∧
    writeData Chunking.whole (checkWriter (buffer String)) [] recordPtr =
      andThen ((checkWriter (buffer String)).WriteString [] (lit "data:")) (fun s =>
        andThen (jsonEncode (checkWriter (buffer String)) s recordPtr)
          (fun s => (checkWriter (buffer String)).WriteString s (lit "\n"))) ∧
    writeData Chunking.whole (checkWriter (buffer String)) [] recordPtrPtr =
      andThen ((checkWriter (buffer String)).WriteString [] (lit "data:")) (fun s =>
        andThen (dataReplacer.WriteString Chunking.whole (checkWriter (buffer String)) s
          (Sprint recordPtrPtr))
          (fun s => (checkWriter (buffer String)).WriteString s (lit "\n\n"))) ∧
    writeData Chunking.whole (checkWriter (buffer String)) [] arrayOneTwo =
      andThen ((checkWriter (buffer String)).WriteString [] (lit "data:")) (fun s =>
        andThen (dataReplacer.WriteString Chunking.whole (checkWriter (buffer String)) s
          (Sprint arrayOneTwo))
          (fun s => (checkWriter (buffer String)).WriteString s (lit "\n\n"))) :=
  ⟨by decide, by decide, by decide,
   (writeData_arm_iff_structured Chunking.whole (checkWriter (buffer String)) []
      recordPtr).2.1 (by decide),
   (writeData_arm_iff_structured Chunking.whole (checkWriter (buffer String)) []
      recordPtrPtr).2.2.1 (by decide),
   (writeData_arm_iff_structured Chunking.whole (checkWriter (buffer String)) []
      arrayOneTwo).2.2.1 (by decide)⟩

/-! ## Independence of calls -/

theorem Encode_buffer_append {ε : Type} (c : Chunking) (buf : Bytes) (ev : Event ε) :
    Encode c (buffer ε) buf ev =
      (buf ++ (Encode c (buffer ε) [] ev).1, (Encode c (buffer ε) [] ev).2) := by
  have h1 : (Encode c (buffer ε) buf ev).1 = buf ++ (Encode c (buffer ε) [] ev).1 := by
    rw [Encode_buffer, Encode_buffer c [], writeData_buffer_fst,
      writeData_buffer_fst c ([] ++ _)]
    simp only [List.append_assoc, List.nil_append]
  have h2 : (Encode c (buffer ε) buf ev).2 = (Encode c (buffer ε) [] ev).2 := by
    rw [Encode_buffer, Encode_buffer c [], writeData_buffer_snd,
      writeData_buffer_snd c ([] ++ _)]
  exact Prod.ext h1 h2

/-- C11: `Encode` only appends, and what it appends depends on the event alone: on a buffer
holding `buf` it leaves `buf` followed by the bytes it writes to an empty buffer, with the
same error; so encoding a list of events one after the other on one buffer leaves the
concatenation of their separate encodings after what the buffer held. -/
theorem Encode_append_only {ε : Type} (c : Chunking) (buf : Bytes) (ev : Event ε)
    (evs : List (Event ε)) :
    Encode c (buffer ε) buf ev =
      (buf ++ (Encode c (buffer ε) [] ev).1, (Encode c (buffer ε) [] ev).2)
    ∧ evs.foldl (fun b e => (Encode c (buffer ε) b e).1) buf =
        buf ++ (evs.map fun e => (Encode c (buffer ε) [] e).1).flatten := by
  refine ⟨Encode_buffer_append c buf ev, ?_⟩
  induction evs generalizing buf with
  | nil => simp
  | cons e es ih =>
    simp only [List.foldl_cons, List.map_cons, List.flatten_cons]
    rw [ih, Encode_buffer_append c buf e]
    simp only [List.append_assoc]

/-! ## An id without control characters -/

theorem escapeField_of_no_line_break (v : Bytes) (h : ∀ b ∈ v, b ≠ 10 ∧ b ≠ 13) :
    escapeField v = v := by
  induction v with
  | nil => rfl
  | cons b v ih =>
    have hb := h b (by simp)
    have hv : ∀ x ∈ v, x ≠ 10 ∧ x ≠ 13 := fun x hx => h x (List.mem_cons_of_mem _ hx)
    have e := ih hv
    simp only [escapeField, List.flatMap_cons] at e ⊢
    rw [e]
    simp [hb.1, hb.2]

theorem not_control_no_line_break (b : UInt8) (h : isControl b = false) :
    b ≠ 10 ∧ b ≠ 13 := by
  constructor
  · rintro rfl; revert h; decide
  · rintro rfl; revert h; decide

/-- C12: for a non-empty id without control characters, the output of `Encode` begins with
`id:`, the id itself unchanged, and one newline; this is the first line of the output. -/
theorem Encode_plain_id_line {ε : Type} (c : Chunking) (ev : Event ε) (hne : ev.Id ≠ [])
    (hctl : ∀ b ∈ ev.Id, isControl b = false) :
    lit "id:" ++ ev.Id ++ [10] <+: (Encode c (buffer ε) [] ev).1
    ∧ (lines (Encode c (buffer ε) [] ev).1).head? = some (lit "id:" ++ ev.Id) := by
  have hesc : escapeField ev.Id = ev.Id :=
    escapeField_of_no_line_break _ (fun b hb => not_control_no_line_break b (hctl b hb))
  have hout : (Encode c (buffer ε) [] ev).1 =
      (lit "id:" ++ ev.Id) ++ 10 ::
        ((if ev.Event = [] then [] else lit "event:" ++ escapeField ev.Event ++ [10])
        ++ (if ev.Retry = 0 then [] else lit "retry:" ++ FormatUint ev.Retry ++ [10])
        ++ (writeData c (checkWriter (buffer ε)) [] ev.Data).1) := by
    rw [Encode_buffer, writeData_buffer_fst]
    simp [hne, hesc]
  have hno : (10 : UInt8) ∉ lit "id:" ++ ev.Id := by
    have := id_line_no_newline ev.Id
    rwa [hesc] at this
  constructor
  · rw [hout]
    refine ⟨(if ev.Event = [] then [] else lit "event:" ++ escapeField ev.Event ++ [10])
        ++ (if ev.Retry = 0 then [] else lit "retry:" ++ FormatUint ev.Retry ++ [10])
        ++ (writeData c (checkWriter (buffer ε)) [] ev.Data).1, ?_⟩
    simp only [List.append_assoc, List.singleton_append]
  · rw [hout, lines_append_newline _ _ hno]
    rfl

/-- The id `msg-42` is not empty and has no control character, so `Encode_plain_id_line`
applies to an event that carries it. -/
theorem Encode_plain_id_line_witness :
    lit "msg-42" ≠ [] ∧ (∀ b ∈ lit "msg-42", isControl b = false) ∧
    (lit "id:" ++ lit "msg-42" ++ [10] <+:
        (Encode Chunking.whole (buffer String) [] ⟨lit "tick", lit "msg-42", 0, recordA1⟩).1
    ∧ (lines (Encode Chunking.whole (buffer String) []
        ⟨lit "tick", lit "msg-42", 0, recordA1⟩).1).head? = some (lit "id:" ++ lit "msg-42")) :=
  ⟨by decide, by decide,
   Encode_plain_id_line Chunking.whole ⟨lit "tick", lit "msg-42", 0, recordA1⟩
     (by decide) (by decide)⟩

/-! ## An event with data only -/

/-- C13: for an event with empty `Id`, empty `Event`, `Retry` zero and scalar data, `Encode`
writes the data field and nothing else: no line of the output begins with `id:`, `event:` or
`retry:`; with the data `hello` the output is `data:hello` followed by two newlines. -/
theorem Encode_data_only {ε : Type} (c : Chunking) (buf : Bytes) (ev : Event ε)
    (hid : ev.Id = []) (hev : ev.Event = []) (hre : ev.Retry = 0)
    (hs : isStructured ev.Data = false) :
    Encode c (buffer ε) buf ev =
      (buf ++ (lit "data:" ++ escapeData (Sprint ev.Data) ++ [10, 10]), none)
    ∧ (∀ l ∈ lines (Encode c (buffer ε) [] ev).1,
        (l = [] ∨ lit "data:" <+: l) ∧
        ¬ lit "id:" <+: l ∧ ¬ lit "event:" <+: l ∧ ¬ lit "retry:" <+: l)
    ∧ (Sprint ev.Data = lit "hello" →
        (Encode c (buffer ε) [] ev).1 = lit "data:hello\n\n") := by
  have hall : ∀ b : Bytes, Encode c (buffer ε) b ev =
      (b ++ (lit "data:" ++ escapeData (Sprint ev.Data) ++ [10, 10]), none) := by
    intro b
    rw [Encode_buffer, writeData_buffer_scalar c _ _ hs]
    simp [hid, hev, hre]
  refine ⟨hall buf, ?_, ?_⟩
  · intro l hl
    rw [Encode_scalar_lines c ev hs] at hl
    simp only [hid, hev, hre, if_true, List.nil_append] at hl
    have hd := data_lines_begin (Sprint ev.Data) (lit "data:") lit_data_no_newline l hl
    have hd2 : l = [] ∨ lit "data:" <+: l := by
      rcases hd with h | h | h
      · exact Or.inl h
      · exact Or.inr h
      · exact Or.inr h
    refine ⟨hd2, ?_, ?_, ?_⟩
    · intro hp
      have h1 : l.head? = some 105 := head_of_isPrefix hp (by decide)
      rcases hd2 with h | h
      · rw [h] at h1; simp at h1
      · have h2 : l.head? = some 100 := head_of_isPrefix h (by decide)
        rw [h1] at h2; revert h2; decide
    · intro hp
      have h1 : l.head? = some 101 := head_of_isPrefix hp (by decide)
      rcases hd2 with h | h
      · rw [h] at h1; simp at h1
      · have h2 : l.head? = some 100 := head_of_isPrefix h (by decide)
        rw [h1] at h2; revert h2; decide
    · intro hp
      have h1 : l.head? = some 114 := head_of_isPrefix hp (by decide)
      rcases hd2 with h | h
      · rw [h] at h1; simp at h1
      · have h2 : l.head? = some 100 := head_of_isPrefix h (by decide)
        rw [h1] at h2; revert h2; decide
  · intro ht
    rw [hall [], ht]
    show [] ++ (lit "data:" ++ escapeData (lit "hello") ++ [10, 10]) = _
    decide

/-- The event with nothing but the data `hello` falls under `Encode_data_only`. -/
theorem Encode_data_only_witness :
    isStructured hello = false ∧
    Encode Chunking.whole (buffer String) [] ⟨[], [], 0, hello⟩ =
      (lit "data:hello\n\n", none) :=
  ⟨by decide,
   ((Encode_data_only Chunking.whole [] (⟨[], [], 0, hello⟩ : Event String)
      rfl rfl rfl (by decide)).1).trans (by decide)⟩

/-! ## Render and Encode -/

theorem writeAll_spy {ε : Type} (x : Option (List Bytes) × Option (List Bytes))
    (res : Option ε) (ps : List Bytes) :
    ∀ seen : List (Option (List Bytes) × Option (List Bytes)),
      (∀ y ∈ seen, y = x) →
      ∀ y ∈ (writeAll (checkWriter ⟨fun s (_ : Bytes) => (s ++ [x], res)⟩) seen ps).1,
        y = x := by
  induction ps with
  | nil => intro seen h y hy; exact h y hy
  | cons p ps ih =>
    intro seen h y hy
    have hseen : ∀ z ∈ seen ++ [x], z = x := by
      intro z hz
      rcases List.mem_append.1 hz with hz | hz
      · exact h z hz
      · simpa using hz
    cases res with
    | none =>
      have e : writeAll (checkWriter ⟨fun s (_ : Bytes) => (s ++ [x], (none : Option ε))⟩)
          seen (p :: ps) =
          writeAll (checkWriter ⟨fun s (_ : Bytes) => (s ++ [x], (none : Option ε))⟩)
            (seen ++ [x]) ps := rfl
      rw [e] at hy
      exact ih (seen ++ [x]) hseen y hy
    | some err =>
      have e : writeAll (checkWriter ⟨fun s (_ : Bytes) => (s ++ [x], some err)⟩)
          seen (p :: ps) = (seen ++ [x], some err) := rfl
      rw [e] at hy
      exact hseen y hy

/-- C14: `Render` leaves the header map it has set, and what it does to the body and what
it returns is what `Encode` does and returns for the same event on the body sink, every
write of which is made with the header map already in its final state; so whatever a body
write sees of `Content-Type` and `Cache-Control` is the final value, also when the writes
fail. -/
theorem Render_body_is_Encode {σ ε : Type} (c : Chunking) (r : Event ε)
    (w : ResponseWriter σ ε) (resp : Response σ) :
    (r.Render c w resp).1.body =
      (Encode c ⟨w.Write (r.Render c w resp).1.header⟩ resp.body r).1
    ∧ (r.Render c w resp).2 =
      (Encode c ⟨w.Write (r.Render c w resp).1.header⟩ resp.body r).2
    ∧ (∀ (w2 : ResponseWriter σ ε) (body2 : σ) (r2 : Event ε),
        (r2.Render c w2 ⟨resp.header, body2⟩).1.header = (r.Render c w resp).1.header)
    ∧ (∀ (res : Option ε) (hdr : Header),
        ∀ y ∈ (r.Render c (headerSpy res) ⟨hdr, []⟩).1.body,
          y = (some [lit "text/event-stream"],
            (match hdr (lit "Cache-Control") with
             | some v => some v
             | none => some [lit "no-cache"]))) := by
  refine ⟨rfl, rfl, fun _ _ _ => rfl, ?_⟩
  intro res hdr y hy
  have hne : lit "Cache-Control" ≠ lit "Content-Type" := by decide
  cases hpre : hdr (lit "Cache-Control") with
  | none =>
    have hb : (r.Render c (headerSpy res) ⟨hdr, []⟩).1.body =
        (Encode c ⟨fun s (_ : Bytes) =>
          (s ++ [(some [lit "text/event-stream"], some [lit "no-cache"])], res)⟩ [] r).1 := by
      simp [Event.Render, headerSpy, Header.set, hne, hne.symm, hpre, contentType,
        ContentType, noCache]
    rw [hb, Encode_eq_writeAll, andThen_fst] at hy
    exact writeAll_spy _ res _ [] (by simp) y hy
  | some v =>
    have hb : (r.Render c (headerSpy res) ⟨hdr, []⟩).1.body =
        (Encode c ⟨fun s (_ : Bytes) =>
          (s ++ [(some [lit "text/event-stream"], some v)], res)⟩ [] r).1 := by
      simp [Event.Render, headerSpy, Header.set, hne, hne.symm, hpre, contentType,
        ContentType]
    rw [hb, Encode_eq_writeAll, andThen_fst] at hy
    exact writeAll_spy _ res _ [] (by simp) y hy

/-- A response with `Cache-Control: max-age=10` set beforehand: every body write that
`Render` makes sees `Content-Type: text/event-stream` and the `max-age=10` kept, as
`Render_body_is_Encode` says. -/
theorem Render_body_is_Encode_witness :
    ∀ y ∈ ((⟨[], [], 0, hello⟩ : Event String).Render Chunking.whole
        (headerSpy none) ⟨maxAgeHeader, []⟩).1.body,
      y = (some [lit "text/event-stream"], some [lit "max-age=10"]) :=
  (Render_body_is_Encode Chunking.whole (⟨[], [], 0, hello⟩ : Event String)
    (headerSpy none) ⟨maxAgeHeader, []⟩).2.2.2 none maxAgeHeader

/-! ## A pointer to a string -/

/-- C15, as stated, fails: for a pointer to the string `hello` the scalar path is taken,
but the text written after `data:` is what `fmt.Sprint` prints for the pointer, its address,
and the data field differs from the one written for the string `hello` itself. -/
theorem writeData_string_pointer_text_fails :
    isStructured helloPtr = false ∧
    helloPtr.Elem = hello ∧
    Sprint hello = lit "hello" ∧
    writeData Chunking.whole (checkWriter (buffer String)) [] helloPtr =
      (lit "data:0xc000010250\n\n", none) ∧
    writeData Chunking.whole (checkWriter (buffer String)) [] hello =
      (lit "data:hello\n\n", none) ∧
    (writeData Chunking.whole (checkWriter (buffer String)) [] helloPtr).1 ≠
      (writeData Chunking.whole (checkWriter (buffer String)) [] hello).1 := by
  refine ⟨by decide, rfl, rfl, rfl, rfl, by decide⟩

/-- C15, amended: for a data value that is a pointer to a string, `writeData` takes the
scalar path, and the text it escapes and writes after `data:` is the text `fmt.Sprint`
gives for the pointer itself, whatever the text of the string pointed to: the pointer is
dereferenced to classify the value and not to print it. -/
theorem writeData_string_pointer {ε : Type} (c : Chunking) (buf : Bytes)
    (str ptr : Rendering ε) :
    kindOfData (Value.pointer (some (Value.direct Kind.String str)) ptr) = Kind.String
    ∧ isStructured (Value.pointer (some (Value.direct Kind.String str)) ptr) = false
    ∧ writeData c (checkWriter (buffer ε)) buf
        (Value.pointer (some (Value.direct Kind.String str)) ptr) =
      (buf ++ (lit "data:" ++ escapeData ptr.text ++ [10, 10]), none) := by
  have hs : isStructured (Value.pointer (some (Value.direct Kind.String str)) ptr) = false := by
    simp [isStructured, derefOnce, Value.Kind]
  exact ⟨rfl, hs, writeData_buffer_scalar c buf _ hs⟩

/-! ## The data field is always written -/

theorem checkedKindOfData_proper {ε : Type} (data : Value ε) (h : data.proper = true) :
    checkedKindOfData data = some (kindOfData data) := by
  cases data with
  | nil => rfl
  | direct k out =>
    have hk : k ≠ Kind.Ptr := by simpa [Value.proper] using h
    simp [checkedKindOfData, kindOfData, Value.Kind, hk]
  | pointer elem out =>
    cases elem with
    | none => rfl
    | some v => rfl

theorem writeData_buffer_begins {ε : Type} (c : Chunking) (data : Value ε) :
    lit "data:" <+: (writeData c (checkWriter (buffer ε)) [] data).1 := by
  cases h : isStructured data with
  | false =>
    rw [writeData_buffer_scalar c _ _ h]
    exact ⟨escapeData (Sprint data) ++ [10, 10], by simp⟩
  | true =>
    rw [writeData_buffer_json c _ _ h]
    cases Marshal data with
    | ok doc => exact ⟨doc ++ [10, 10], by simp⟩
    | error err => exact ⟨[], by simp⟩

/-- C16: the data field is never left out. `kindOfData` returns normally on every value, in
particular on the nil interface and on a nil pointer, for which it gives `Invalid`, so that
these take the scalar path; whatever the event, `Encode` writes, after the id, event and
retry lines, a data field that begins with `data:`; for the nil interface it is
`data:<nil>` and for a scalar with empty text it is `data:`, each followed by two
newlines. -/
theorem data_field_always_written {ε : Type} (c : Chunking) (buf : Bytes) (ev : Event ε) :
    (ev.Data.proper = true → checkedKindOfData ev.Data = some (kindOfData ev.Data))
    ∧ checkedKindOfData (Value.nil : Value ε) = some Kind.Invalid
    ∧ (∀ out : Rendering ε,
        checkedKindOfData (Value.pointer none out) = some Kind.Invalid ∧
        isStructured (Value.pointer none out) = false)
    ∧ isStructured (Value.nil : Value ε) = false
    ∧ (Encode c (buffer ε) buf ev).1 =
        buf ++ ((if ev.Id = [] then [] else lit "id:" ++ escapeField ev.Id ++ [10])
          ++ (if ev.Event = [] then [] else lit "event:" ++ escapeField ev.Event ++ [10])
          ++ (if ev.Retry = 0 then [] else lit "retry:" ++ FormatUint ev.Retry ++ [10]))
          ++ (writeData c (checkWriter (buffer ε)) [] ev.Data).1
    ∧ lit "data:" <+: (writeData c (checkWriter (buffer ε)) [] ev.Data).1
    ∧ (ev.Data = Value.nil →
        writeData c (checkWriter (buffer ε)) [] ev.Data = (lit "data:<nil>\n\n", none))
    ∧ (isStructured ev.Data = false → Sprint ev.Data = [] →
        writeData c (checkWriter (buffer ε)) [] ev.Data = (lit "data:\n\n", none)) := by
  refine ⟨checkedKindOfData_proper _, rfl, fun out => ⟨rfl, ?_⟩, ?_, ?_,
    writeData_buffer_begins c _, ?_, ?_⟩
  · simp [isStructured, derefOnce, Value.Kind]
  · simp [isStructured, derefOnce, Value.Kind]
  · rw [Encode_buffer, writeData_buffer_fst]
  · intro hnil
    have hs : isStructured ev.Data = false := by
      rw [hnil]; simp [isStructured, derefOnce, Value.Kind]
    rw [writeData_buffer_scalar c _ _ hs, hnil]
    have e : [] ++ (lit "data:" ++ escapeData (Sprint (Value.nil : Value ε)) ++ [10, 10]) =
        lit "data:<nil>\n\n" := by
      show [] ++ (lit "data:" ++ escapeData (lit "<nil>") ++ [10, 10]) = _
      decide
    rw [e]
  · intro hs ht
    rw [writeData_buffer_scalar c _ _ hs, ht]
    have e : [] ++ (lit "data:" ++ escapeData [] ++ [10, 10]) = lit "data:\n\n" := by decide
    rw [e]

/-- Events whose data is the nil interface, a nil pointer and the empty string fall under
`data_field_always_written`. -/
theorem data_field_always_written_witness :
    (checkedKindOfData nilPtr = some (kindOfData nilPtr) ∧ kindOfData nilPtr = Kind.Invalid)
    ∧ writeData Chunking.whole (checkWriter (buffer String)) [] (Value.nil : Value String) =
        (lit "data:<nil>\n\n", none)
    ∧ writeData Chunking.whole (checkWriter (buffer String)) [] emptyString =
        (lit "data:\n\n", none) :=
  ⟨⟨(data_field_always_written Chunking.whole []
      (⟨[], [], 0, nilPtr⟩ : Event String)).1 rfl,
    rfl⟩,
   (data_field_always_written Chunking.whole []
      (⟨[], [], 0, Value.nil⟩ : Event String)).2.2.2.2.2.2.1 rfl,
   (data_field_always_written Chunking.whole []
      (⟨[], [], 0, emptyString⟩ : Event String)).2.2.2.2.2.2.2 (by decide) rfl⟩

/-! ## The id escaping loses information -/

theorem escapeField_append (x y : Bytes) :
    escapeField (x ++ y) = escapeField x ++ escapeField y := by
  simp [escapeField, List.flatMap_append]

/-- C19: the escaping of `id` and `event` values is not injective. The ids `a<LF>b` and
`a\nb` (backslash and `n` in place of the newline) are distinct and not empty, and `writeId`
writes the same bytes for both; the same holds around any newline, so `writeId` is not an
injective function of the id. -/
theorem writeId_not_injective {ε : Type} (c : Chunking) (buf : Bytes) :
    lit "a\nb" ≠ lit "a\\nb" ∧ lit "a\nb" ≠ [] ∧ lit "a\\nb" ≠ []
    ∧ (10 : UInt8) ∈ lit "a\nb" ∧ lit "a\\nb" = [97, 92, 110, 98]
    ∧ writeId c (checkWriter (buffer ε)) buf (lit "a\nb") =
        writeId c (checkWriter (buffer ε)) buf (lit "a\\nb")
    ∧ (∀ x y : Bytes,
        writeId c (checkWriter (buffer ε)) buf (x ++ 10 :: y) =
          writeId c (checkWriter (buffer ε)) buf (x ++ 92 :: 110 :: y))
    ∧ ¬ Function.Injective (fun id : Bytes => writeId c (checkWriter (buffer ε)) buf id) := by
  have hgen : ∀ x y : Bytes,
      writeId c (checkWriter (buffer ε)) buf (x ++ 10 :: y) =
        writeId c (checkWriter (buffer ε)) buf (x ++ 92 :: 110 :: y) := by
    intro x y
    have e : escapeField (x ++ 10 :: y) = escapeField (x ++ 92 :: 110 :: y) := by
      rw [escapeField_append, escapeField_append]
      congr 1
    rw [writeId_buffer, writeId_buffer, e]
    simp
  have hab : writeId c (checkWriter (buffer ε)) buf (lit "a\nb") =
      writeId c (checkWriter (buffer ε)) buf (lit "a\\nb") := hgen [97] [98]
  refine ⟨by decide, by decide, by decide, by decide, by decide, hab, hgen, ?_⟩
  intro hinj
  have := hinj hab
  revert this
  decide

/-! ## Lemmas: the lines of the data field -/

theorem lines_cons_of_ne (b : UInt8) (s : Bytes) (h : b ≠ 10) :
    lines (b :: s) = (b :: (lines s).headD []) :: (lines s).tail := by
  cases hl : lines s with
  | nil => exact absurd hl (lines_ne_nil s)
  | cons l ls => simp [lines, h, hl]

theorem lines_append (a b : Bytes) : lines (a ++ 10 :: b) = lines a ++ lines b := by
  induction a with
  | nil => simp [lines]
  | cons x a ih =>
    by_cases hx : x = 10
    · simp [lines, hx, ih]
    · rw [List.cons_append, lines_cons_of_ne _ _ hx, lines_cons_of_ne _ _ hx, ih]
      cases hl : lines a with
      | nil => exact absurd hl (lines_ne_nil a)
      | cons l ls => simp

theorem lines_blank_line (a : Bytes) : lines (a ++ [10, 10]) = lines a ++ [[], []] := by
  rw [lines_append]
  rfl

theorem escapeCR_append (x y : Bytes) : escapeCR (x ++ y) = escapeCR x ++ escapeCR y := by
  simp [escapeCR, List.flatMap_append]

theorem escapeCR_no_newline (l : Bytes) (h : (10 : UInt8) ∉ l) : (10 : UInt8) ∉ escapeCR l := by
  intro hm
  simp only [escapeCR, List.mem_flatMap] at hm
  obtain ⟨a, ha, hba⟩ := hm
  by_cases h13 : a = 13
  · subst h13
    revert hba; decide
  · simp only [h13, if_false, List.mem_singleton] at hba
    exact h (hba ▸ ha)

theorem escapeData_cons_of_ne (b : UInt8) (t : Bytes) (h : b ≠ 10) :
    escapeData (b :: t) = escapeCR [b] ++ escapeData t := by
  rw [escapeData_cons]
  simp [h, escapeCR]

/-- The lines of `p` followed by an escaped scalar text: the first line of the text goes
after `p`, every further line of the text after a fresh `data:`, and inside the lines
only carriage returns are changed. -/
theorem lines_escapeData (t : Bytes) :
    ∀ p : Bytes, (10 : UInt8) ∉ p →
      lines (p ++ escapeData t) =
        (p ++ escapeCR ((lines t).headD [])) ::
          (lines t).tail.map (fun l => lit "data:" ++ escapeCR l) := by
  induction t with
  | nil =>
    intro p hp
    have e : p ++ escapeData [] = p := by simp [escapeData]
    rw [e, lines_of_no_newline p hp]
    simp [lines, escapeCR]
  | cons b t ih =>
    intro p hp
    by_cases hb : b = 10
    · subst hb
      have e : p ++ escapeData (10 :: t) = p ++ 10 :: (lit "data:" ++ escapeData t) := by
        rw [escapeData_cons]; simp
      rw [e, lines_append_newline p _ hp, ih _ lit_data_no_newline]
      cases hl : lines t with
      | nil => exact absurd hl (lines_ne_nil t)
      | cons l ls => simp [lines, hl, escapeCR]
    · have hp2 : (10 : UInt8) ∉ p ++ escapeCR [b] := by
        intro hm
        rcases List.mem_append.1 hm with hm | hm
        · exact hp hm
        · exact escapeCR_no_newline [b] (by simpa using Ne.symm hb) hm
      have e : p ++ escapeData (b :: t) = (p ++ escapeCR [b]) ++ escapeData t := by
        rw [escapeData_cons_of_ne b t hb]; simp
      rw [e, ih _ hp2, lines_cons_of_ne b t hb]
      have e2 : ∀ l : Bytes, escapeCR (b :: l) = escapeCR [b] ++ escapeCR l := by
        intro l
        rw [← escapeCR_append]; rfl
      simp only [List.headD_cons, List.tail_cons]
      rw [e2 ((lines t).headD []), List.append_assoc]

/-- The lines of a scalar data field without its two final newlines: the lines of the
text, each with `data:` in front and its carriage returns escaped. -/
theorem lines_data_field (t : Bytes) :
    lines (lit "data:" ++ escapeData t) =
      (lines t).map (fun l => lit "data:" ++ escapeCR l) := by
  rw [lines_escapeData t _ lit_data_no_newline]
  cases hl : lines t with
  | nil => exact absurd hl (lines_ne_nil t)
  | cons l ls => simp

theorem unlines_lines (t : Bytes) : unlines (lines t) = t := by
  induction t with
  | nil => rfl
  | cons b t ih =>
    by_cases hb : b = 10
    · subst hb
      cases hl : lines t with
      | nil => exact absurd hl (lines_ne_nil t)
      | cons l ls =>
        rw [hl] at ih
        simp [lines, hl, unlines, ih]
    · rw [lines_cons_of_ne b t hb]
      cases hl : lines t with
      | nil => exact absurd hl (lines_ne_nil t)
      | cons l ls =>
        rw [hl] at ih
        cases ls with
        | nil =>
          simp only [unlines] at ih
          simp [unlines, ih]
        | cons l2 ls =>
          simp only [unlines] at ih
          simp [unlines, ih]

theorem lines_length (t : Bytes) : (lines t).length = t.count 10 + 1 := by
  induction t with
  | nil => rfl
  | cons b t ih =>
    by_cases hb : b = 10
    · subst hb
      simp [lines, ih]
    · rw [lines_cons_of_ne b t hb]
      have hne := lines_ne_nil t
      have hc : (b :: t).count 10 = t.count 10 := by
        rw [List.count_cons]
        simp [hb]
      rw [hc, ← ih]
      cases hl : lines t with
      | nil => exact absurd hl hne
      | cons l ls => simp

theorem mem_of_mem_lines (t : Bytes) : ∀ l ∈ lines t, ∀ b ∈ l, b ∈ t := by
  induction t with
  | nil =>
    intro l hl b hb
    simp [lines] at hl
    subst hl
    simp at hb
  | cons x t ih =>
    intro l hl b hb
    by_cases hx : x = 10
    · subst hx
      simp only [lines, if_true, List.mem_cons] at hl
      rcases hl with rfl | hl
      · simp at hb
      · exact List.mem_cons_of_mem _ (ih l hl b hb)
    · rw [lines_cons_of_ne x t hx] at hl
      cases hls : lines t with
      | nil => exact absurd hls (lines_ne_nil t)
      | cons l0 ls =>
        rw [hls] at hl ih
        simp only [List.headD_cons, List.tail_cons, List.mem_cons] at hl
        rcases hl with rfl | hl
        · rcases List.mem_cons.1 hb with rfl | hb
          · simp
          · exact List.mem_cons_of_mem _ (ih l0 (by simp) b hb)
        · exact List.mem_cons_of_mem _ (ih l (by simp [hl]) b hb)

theorem escapeCR_of_no_cr (l : Bytes) (h : (13 : UInt8) ∉ l) : escapeCR l = l := by
  induction l with
  | nil => rfl
  | cons b l ih =>
    have hb : b ≠ 13 := fun e => h (by simp [e])
    have hl : (13 : UInt8) ∉ l := fun e => h (List.mem_cons_of_mem _ e)
    have e := ih hl
    simp only [escapeCR, List.flatMap_cons] at e ⊢
    rw [e]
    simp [hb]

theorem stripLabel_data (l : Bytes) : stripLabel (lit "data:" ++ l) = l := by
  have hp : (lit "data:").isPrefixOf (lit "data:" ++ l) = true := by
    rw [List.isPrefixOf_iff_prefix]
    exact List.prefix_append _ _
  simp [stripLabel, hp]

/-! ## Multi-line data -/

/-- C18: for a scalar whose text `t` holds no carriage return, take the data field written
by `writeData` without its two final newlines, split it at newlines, take `data:` off every
line and join the lines with newlines: the result is `t`. Every line begins with `data:`,
and there is one line more than `t` has newlines. -/
theorem data_lines_round_trip {ε : Type} (c : Chunking) (data : Value ε)
    (hs : isStructured data = false) (hcr : (13 : UInt8) ∉ Sprint data) :
    ∃ body : Bytes,
      (writeData c (checkWriter (buffer ε)) [] data).1 = body ++ [10, 10]
      ∧ (∀ l ∈ lines body, lit "data:" <+: l)
      ∧ unlines ((lines body).map stripLabel) = Sprint data
      ∧ (lines body).length = (Sprint data).count 10 + 1 := by
  refine ⟨lit "data:" ++ escapeData (Sprint data), ?_, ?_, ?_, ?_⟩
  · rw [writeData_buffer_scalar c _ _ hs]
    simp
  · intro l hl
    rw [lines_data_field] at hl
    obtain ⟨l0, _, rfl⟩ := List.mem_map.1 hl
    exact List.prefix_append _ _
  · rw [lines_data_field, List.map_map]
    have hid : (lines (Sprint data)).map
        (stripLabel ∘ fun l => lit "data:" ++ escapeCR l) = lines (Sprint data) := by
      have hcongr : ∀ l ∈ lines (Sprint data),
          (stripLabel ∘ fun l => lit "data:" ++ escapeCR l) l = id l := by
        intro l hl
        have hno : (13 : UInt8) ∉ l := fun hm => hcr (mem_of_mem_lines _ l hl _ hm)
        simp only [Function.comp, escapeCR_of_no_cr l hno, stripLabel_data, id]
      rw [List.map_congr_left hcongr, List.map_id]
    rw [hid, unlines_lines]
  · rw [lines_data_field, List.length_map, lines_length]

/-- The text `a<LF>b<LF><LF>c` has no carriage return, so `data_lines_round_trip` applies:
its data field has four lines that give the text back. -/
theorem data_lines_round_trip_witness :
    isStructured fourLines = false ∧ (13 : UInt8) ∉ Sprint fourLines ∧
    ∃ body : Bytes,
      (writeData Chunking.whole (checkWriter (buffer String)) [] fourLines).1 =
        body ++ [10, 10]
      ∧ (∀ l ∈ lines body, lit "data:" <+: l)
      ∧ unlines ((lines body).map stripLabel) = Sprint fourLines
      ∧ (lines body).length = (Sprint fourLines).count 10 + 1 :=
  ⟨by decide, by decide,
   data_lines_round_trip Chunking.whole fourLines (by decide) (by decide)⟩

/-! ## No field injection -/

theorem escapeData_no_cr (t : Bytes) : (13 : UInt8) ∉ escapeData t := by
  intro hm
  simp only [escapeData, List.mem_flatMap] at hm
  obtain ⟨a, _, hba⟩ := hm
  by_cases h10 : a = 10
  · subst h10
    revert hba; decide
  · by_cases h13 : a = 13
    · subst h13
      revert hba; decide
    · simp only [h10, h13, if_false, List.mem_singleton] at hba
      exact h13 hba.symm

theorem opt_line_no_cr (cond : Prop) [Decidable cond] (lab x : Bytes)
    (hlab : (13 : UInt8) ∉ lab) (hx : (13 : UInt8) ∉ x) :
    (13 : UInt8) ∉ (if cond then [] else lab ++ x ++ [10]) := by
  by_cases hc : cond
  · simp [hc]
  · simp only [hc, if_false, List.mem_append, List.mem_singleton, not_or]
    exact ⟨⟨hlab, hx⟩, by decide⟩

theorem opt_line_head (cond : Prop) [Decidable cond] (lab x : Bytes) (a : UInt8)
    (hlab : lab.head? = some a) :
    ∀ l ∈ (if cond then [] else [lab ++ x]), l.head? = some a ∧ lab <+: l := by
  intro l hl
  by_cases hc : cond
  · simp [hc] at hl
  · simp only [hc, if_false, List.mem_singleton] at hl
    subst hl
    exact ⟨head_of_isPrefix (List.prefix_append _ _) hlab, List.prefix_append _ _⟩

theorem countP_label_zero (lab : Bytes) (a b : UInt8) (hlab : lab.head? = some a)
    (hab : a ≠ b) (L : List Bytes) (hL : ∀ l ∈ L, l.head? = some b) :
    L.countP (fun l => lab.isPrefixOf l) = 0 := by
  rw [List.countP_eq_zero]
  intro l hl hp
  have hpre : lab <+: l := List.isPrefixOf_iff_prefix.1 hp
  have h1 := head_of_isPrefix hpre hlab
  rw [hL l hl] at h1
  exact hab (Option.some.inj h1).symm

theorem countP_opt_le_one (cond : Prop) [Decidable cond] (q : Bytes → Bool) (x : Bytes) :
    (if cond then [] else [x]).countP q ≤ 1 := by
  by_cases hc : cond
  · simp [hc]
  · simp only [hc, if_false]
    exact (List.countP_le_length q).trans (by simp)

/-- C17: for an event with scalar data, on a sink whose writes never fail, the output of
`Encode` holds no carriage return; split at newlines it is a list of lines followed by the
two empty pieces of the final blank line, every one of these lines begins with `id:`,
`event:`, `retry:` or `data:`, and at most one begins with `id:`, at most one with `event:`
and at most one with `retry:`. -/
theorem Encode_no_field_injection {ε : Type} (c : Chunking) (ev : Event ε)
    (hs : isStructured ev.Data = false) :
    (13 : UInt8) ∉ (Encode c (buffer ε) [] ev).1
    ∧ ∃ L : List Bytes,
        lines (Encode c (buffer ε) [] ev).1 = L ++ [[], []]
        ∧ (∀ l ∈ L, lit "id:" <+: l ∨ lit "event:" <+: l ∨ lit "retry:" <+: l ∨
            lit "data:" <+: l)
        ∧ L.countP (fun l => (lit "id:").isPrefixOf l) ≤ 1
        ∧ L.countP (fun l => (lit "event:").isPrefixOf l) ≤ 1
        ∧ L.countP (fun l => (lit "retry:").isPrefixOf l) ≤ 1 := by
  have hI := opt_line_head (ev.Id = []) (lit "id:") (escapeField ev.Id) 105 (by decide)
  have hE := opt_line_head (ev.Event = []) (lit "event:") (escapeField ev.Event) 101
    (by decide)
  have hR := opt_line_head (ev.Retry = 0) (lit "retry:") (FormatUint ev.Retry) 114
    (by decide)
  have hD : ∀ l ∈ (lines (Sprint ev.Data)).map (fun l => lit "data:" ++ escapeCR l),
      l.head? = some 100 ∧ lit "data:" <+: l := by
    intro l hl
    obtain ⟨l0, _, rfl⟩ := List.mem_map.1 hl
    exact ⟨head_of_isPrefix (List.prefix_append _ _) (by decide), List.prefix_append _ _⟩
  constructor
  · rw [Encode_scalar_output c ev hs]
    have h1 := opt_line_no_cr (ev.Id = []) (lit "id:") (escapeField ev.Id) (by decide)
      (fun hm => (escapeField_no_line_break _ _ hm).2 rfl)
    have h2 := opt_line_no_cr (ev.Event = []) (lit "event:") (escapeField ev.Event)
      (by decide) (fun hm => (escapeField_no_line_break _ _ hm).2 rfl)
    have h3 := opt_line_no_cr (ev.Retry = 0) (lit "retry:") (FormatUint ev.Retry)
      (by decide) (fun hm => (FormatUint_no_line_break _ _ hm).2 rfl)
    have h4 : (13 : UInt8) ∉ lit "data:" ++ escapeData (Sprint ev.Data) ++ [10, 10] := by
      simp only [List.mem_append, not_or]
      exact ⟨⟨by decide, escapeData_no_cr _⟩, by decide⟩
    simp only [List.mem_append, not_or]
    exact ⟨h1, h2, h3, by simpa only [List.mem_append, not_or] using h4⟩
  · refine ⟨(if ev.Id = [] then [] else [lit "id:" ++ escapeField ev.Id])
        ++ ((if ev.Event = [] then [] else [lit "event:" ++ escapeField ev.Event])
        ++ ((if ev.Retry = 0 then [] else [lit "retry:" ++ FormatUint ev.Retry])
        ++ (lines (Sprint ev.Data)).map (fun l => lit "data:" ++ escapeCR l))),
      ?_, ?_, ?_, ?_, ?_⟩
    · rw [Encode_scalar_lines c ev hs, lines_blank_line, lines_data_field]
      simp only [List.append_assoc]
    · intro l hl
      simp only [List.mem_append] at hl
      rcases hl with hl | hl | hl | hl
      · exact Or.inl (hI l hl).2
      · exact Or.inr (Or.inl (hE l hl).2)
      · exact Or.inr (Or.inr (Or.inl (hR l hl).2))
      · exact Or.inr (Or.inr (Or.inr (hD l hl).2))
    · simp only [List.countP_append]
      have z2 := countP_label_zero (lit "id:") 105 101 (by decide) (by decide) _
        (fun l hl => (hE l hl).1)
      have z3 := countP_label_zero (lit "id:") 105 114 (by decide) (by decide) _
        (fun l hl => (hR l hl).1)
      have z4 := countP_label_zero (lit "id:") 105 100 (by decide) (by decide) _
        (fun l hl => (hD l hl).1)
      rw [z2, z3, z4]
      simp only [Nat.add_zero, Nat.zero_add]
      exact countP_opt_le_one (ev.Id = []) (fun l => (lit "id:").isPrefixOf l)
        (lit "id:" ++ escapeField ev.Id)
    · simp only [List.countP_append]
      have z1 := countP_label_zero (lit "event:") 101 105 (by decide) (by decide) _
        (fun l hl => (hI l hl).1)
      have z3 := countP_label_zero (lit "event:") 101 114 (by decide) (by decide) _
        (fun l hl => (hR l hl).1)
      have z4 := countP_label_zero (lit "event:") 101 100 (by decide) (by decide) _
        (fun l hl => (hD l hl).1)
      rw [z1, z3, z4]
      simp only [Nat.add_zero, Nat.zero_add]
      exact countP_opt_le_one (ev.Event = []) (fun l => (lit "event:").isPrefixOf l)
        (lit "event:" ++ escapeField ev.Event)
    · simp only [List.countP_append]
      have z1 := countP_label_zero (lit "retry:") 114 105 (by decide) (by decide) _
        (fun l hl => (hI l hl).1)
      have z2 := countP_label_zero (lit "retry:") 114 101 (by decide) (by decide) _
        (fun l hl => (hE l hl).1)
      have z4 := countP_label_zero (lit "retry:") 114 100 (by decide) (by decide) _
        (fun l hl => (hD l hl).1)
      rw [z1, z2, z4]
      simp only [Nat.add_zero, Nat.zero_add]
      exact countP_opt_le_one (ev.Retry = 0) (fun l => (lit "retry:").isPrefixOf l)
        (lit "retry:" ++ FormatUint ev.Retry)

/-- An event whose id, event name and data try to smuggle in lines of their own (`id:`,
`retry:` and `event:` after a line break) has scalar data, so `Encode_no_field_injection`
applies to it. -/
theorem Encode_no_field_injection_witness :
    isStructured fourLines = false ∧
    ((13 : UInt8) ∉ (Encode Chunking.whole (buffer String) []
        ⟨lit "x\nid:2", lit "1\r\nretry:9", 0, fourLines⟩).1
    ∧ ∃ L : List Bytes,
        lines (Encode Chunking.whole (buffer String) []
          ⟨lit "x\nid:2", lit "1\r\nretry:9", 0, fourLines⟩).1 = L ++ [[], []]
        ∧ (∀ l ∈ L, lit "id:" <+: l ∨ lit "event:" <+: l ∨ lit "retry:" <+: l ∨
            lit "data:" <+: l)
        ∧ L.countP (fun l => (lit "id:").isPrefixOf l) ≤ 1
        ∧ L.countP (fun l => (lit "event:").isPrefixOf l) ≤ 1
        ∧ L.countP (fun l => (lit "retry:").isPrefixOf l) ≤ 1) :=
  ⟨by decide,
   Encode_no_field_injection Chunking.whole
     ⟨lit "x\nid:2", lit "1\r\nretry:9", 0, fourLines⟩ (by decide)⟩

end sse
